import Mathlib

/-!
Verification of the compatibility engine of `dating-algorithm.py`
(`class DatingMatchmaker`).

Embedding conventions:
* Answers, weights, coordinates and distance bounds are stored as rationals
  (the Python floats carry decimal literals); the scoring pipeline is computed
  over `ℝ` because `scipy.spatial.distance.cosine` and the preference distance
  involve a square root.
* Division in Lean is total with `x / 0 = 0`.  In Python a zero weight sum
  raises `ZeroDivisionError` and a zero vector makes `scipy` produce `NaN`
  (after which `round` raises `ValueError`).  Theorems about scoring values
  therefore carry hypotheses (positive weights, nonzero sub-vectors) keeping
  the input inside the region where the Python computation is defined.
* A Python dict is an insertion-ordered association list with unique keys:
  `List (ℕ × _)` here, with `assocLookup` / `setEntry` realising `d[k]` and
  `d[k] = v` (overwrite keeps the original position, as in CPython dicts).
* `list.sort(key=..., reverse=True)` is a stable descending sort; it is
  realised by the stable insertion sort `sortDesc`, which produces the same
  (unique) stable result.
* Python 3 `round` rounds halves to even; `pyRound` mirrors that.
* Both `raise ValueError` sites are modelled by `Except Err`, with the two
  exception messages distinguished by the constructors of `Err`.
-/

/-- The `match_type` strings of the question configuration.  The data model
fixes the domain to exactly these three tags. -/
inductive MatchType
  | similarity
  | complementary
  | dealbreaker
deriving DecidableEq

/-- One value of the `questions_config` dict: `{'weight': w, 'match_type': t}`. -/
structure QC where
  weight : ℚ
  matchType : MatchType
deriving DecidableEq

/-- `questions_config`: an insertion-ordered dict from question index to `QC`. -/
abbrev Config := List (ℕ × QC)

/-- The modelled user preference dict: the optional `location` pair and the
optional `max_distance` bound.  An empty dict (falsy in Python) corresponds to
both fields absent. -/
structure Prefs where
  location : Option (ℚ × ℚ)
  maxDistance : Option ℚ
deriving DecidableEq

/-- Python truthiness of the preference dict: `not prefs` holds exactly when
the dict is empty. -/
def Prefs.isEmptyDict (p : Prefs) : Bool :=
  p.location.isNone && p.maxDistance.isNone

/-- A stored user record: `{'answers': np.array(answers), 'preferences': preferences or {}}`. -/
structure UserRecord where
  answers : List ℚ
  prefs : Prefs
deriving DecidableEq

/-- The matchmaker object: its question configuration and its user dict. -/
structure DM where
  questionsConfig : Config
  users : List (ℕ × UserRecord)
deriving DecidableEq

/-- The two `ValueError` sites: "Expected 100 answers for all questions" and
"User not found in database". -/
inductive Err
  | invalidAnswerLength
  | userNotFound
deriving DecidableEq

/-- The compatibility-breakdown dicts returned by `calculate_compatibility`:
`{'matched': False, 'dealbreakers': [...]}`,
`{'matched': False, 'reason': ...}`, and the `'matched': True` dict carrying
`overall_score`, `similarity_score`, `complementary_score`, `category_scores`. -/
inductive Breakdown
  | dealbreak (dealbreakers : List ℕ)
  | mismatch (reason : String)
  | matched (overallScore simScore compScore : ℤ) (categoryScores : List (String × ℤ))
deriving DecidableEq

/-- Dict read `d[k]` / `k in d` (first matching key). -/
def assocLookup (k : ℕ) : List (ℕ × α) → Option α
  | [] => none
  | (k', v) :: rest => if k = k' then some v else assocLookup k rest

/-- Dict write `d[k] = v`: overwrite in place, else append. -/
def setEntry (k : ℕ) (v : α) : List (ℕ × α) → List (ℕ × α)
  | [] => [(k, v)]
  | (k', v') :: rest => if k = k' then (k, v) :: rest else (k', v') :: setEntry k v rest

/-- `_default_question_config`: the six contiguous default bands. -/
def defaultQuestionConfig : Config :=
  (List.range' 0 20).map (fun i => (i, ⟨5, MatchType.similarity⟩)) ++
  (List.range' 20 20).map (fun i => (i, ⟨3, MatchType.similarity⟩)) ++
  (List.range' 40 20).map (fun i => (i, ⟨5/2, MatchType.similarity⟩)) ++
  (List.range' 60 10).map (fun i => (i, ⟨2, MatchType.complementary⟩)) ++
  (List.range' 70 20).map (fun i => (i, ⟨3/2, MatchType.similarity⟩)) ++
  (List.range' 90 10).map (fun i => (i, ⟨10, MatchType.dealbreaker⟩))

/-- `DatingMatchmaker.__init__`: store the given configuration (or the
default) and an empty user dict. -/
def initMatchmaker (cfg : Option Config) : DM :=
  ⟨cfg.getD defaultQuestionConfig, []⟩

/-- `add_user`: reject unless exactly 100 answers (the source checks the
constant 100 whatever the configuration is), else store/overwrite the record;
`preferences or {}` turns an absent dict into the empty one. -/
def addUser (s : DM) (userId : ℕ) (answers : List ℚ) (preferences : Option Prefs) :
    Except Err DM :=
  if answers.length ≠ 100 then .error .invalidAnswerLength
  else .ok { s with users := setEntry userId ⟨answers, preferences.getD ⟨none, none⟩⟩ s.users }

/-- `user['answers'][i]`.  Out-of-range access raises in Python; the junk
value 0 is only reachable outside the length-100 registration invariant. -/
def ansQ (u : UserRecord) (i : ℕ) : ℚ :=
  u.answers.getD i 0

/-- `_check_dealbreakers`: the indices of dealbreaker-typed questions whose
answers differ by more than 0.7, in configuration order. -/
def checkDealbreakers (cfg : Config) (u1 u2 : UserRecord) : List ℕ :=
  cfg.filterMap (fun e =>
    if e.2.matchType = MatchType.dealbreaker ∧ 7/10 < |ansQ u1 e.1 - ansQ u2 e.1| then
      some e.1
    else none)

/-- `_calculate_distance`: `((x1-x2)**2 + (y1-y2)**2)**0.5`. -/
noncomputable def calcDistance (l1 l2 : ℚ × ℚ) : ℝ :=
  Real.sqrt (((l1.1 : ℝ) - (l2.1 : ℝ)) ^ 2 + ((l1.2 : ℝ) - (l2.2 : ℝ)) ^ 2)

/-- `min(p1.get('max_distance', inf), p2.get('max_distance', inf))`, with
`none` standing for the infinite default. -/
def optMin : Option ℚ → Option ℚ → Option ℚ
  | some a, some b => some (min a b)
  | some a, none => some a
  | none, some b => some b
  | none, none => none

/-- `actual_distance > max_distance`, where an infinite bound is never
exceeded. -/
def exceedsBound (d : ℝ) : Option ℚ → Prop
  | some m => (m : ℝ) < d
  | none => False

/-- `_check_preferences`: pass if either preference dict is empty; otherwise
fail exactly when both users record a location whose distance exceeds the
smaller `max_distance` bound. -/
def checkPreferences (u1 u2 : UserRecord) : Prop :=
  if u1.prefs.isEmptyDict || u2.prefs.isEmptyDict then True
  else
    match u1.prefs.location, u2.prefs.location with
    | some l1, some l2 =>
        ¬ exceedsBound (calcDistance l1 l2) (optMin u1.prefs.maxDistance u2.prefs.maxDistance)
    | _, _ => True

/-- `np.average(x, weights=w) = Σ wᵢxᵢ / Σ wᵢ`. -/
noncomputable def npAverage (x w : List ℝ) : ℝ :=
  (List.zipWith (· * ·) w x).sum / w.sum

/-- `scipy.spatial.distance.cosine(u, v, w)` (uncentered correlation):
`1 − avg(u·v,w) / sqrt(avg(u²,w) · avg(v²,w))`.  For a zero vector scipy
produces `NaN`; the embedding's total division returns junk there. -/
noncomputable def cosineDist (u v w : List ℝ) : ℝ :=
  1 - npAverage (List.zipWith (· * ·) u v) w /
      Real.sqrt (npAverage (u.map (· ^ 2)) w * npAverage (v.map (· ^ 2)) w)

/-- The similarity-typed configuration entries, in configuration order. -/
def simEntries (cfg : Config) : Config :=
  cfg.filter (fun e => e.2.matchType == MatchType.similarity)

/-- The complementary-typed configuration entries, in configuration order. -/
def compEntries (cfg : Config) : Config :=
  cfg.filter (fun e => e.2.matchType == MatchType.complementary)

/-- The answer sub-vector `user['answers'][indices]` of some configuration
entries, as reals. -/
noncomputable def subAnswers (u : UserRecord) (entries : Config) : List ℝ :=
  entries.map (fun e => ((ansQ u e.1 : ℚ) : ℝ))

/-- `weights / weights.sum()`. -/
noncomputable def normWeights (w : List ℝ) : List ℝ :=
  w.map (· / w.sum)

/-- `_calculate_similarity`: 1.0 when there are no similarity questions, else
the weighted cosine similarity `1 - cosine(u1, u2, w=normalized weights)`. -/
noncomputable def calcSimilarity (cfg : Config) (u1 u2 : UserRecord) : ℝ :=
  let entries := simEntries cfg
  if entries = [] then 1
  else
    let w := normWeights (entries.map (fun e => ((e.2.weight : ℚ) : ℝ)))
    1 - cosineDist (subAnswers u1 entries) (subAnswers u2 entries) w

/-- `_calculate_complementarity`: 1.0 when there are no complementary
questions, else the normalized-weight average of `1 - |(|a-b|) - 0.5| * 2`. -/
noncomputable def calcComplementarity (cfg : Config) (u1 u2 : UserRecord) : ℝ :=
  let entries := compEntries cfg
  if entries = [] then 1
  else
    let diffs := List.zipWith (fun x y => |x - y|) (subAnswers u1 entries) (subAnswers u2 entries)
    let compScores := diffs.map (fun d => 1 - |d - 1/2| * 2)
    let w := normWeights (entries.map (fun e => ((e.2.weight : ℚ) : ℝ)))
    npAverage compScores w

/-- Python 3 `round`: round half to even. -/
noncomputable def pyRound (x : ℝ) : ℤ :=
  if Int.fract x = 1/2 then (if Even ⌊x⌋ then ⌊x⌋ else ⌊x⌋ + 1) else round x

/-- The fixed category bands of `_calculate_category_scores` (independent of
the configuration). -/
def categories : List (String × List ℕ) :=
  [("values", List.range' 0 20), ("lifestyle", List.range' 20 20),
   ("personality", List.range' 40 30), ("interests", List.range' 70 20)]

/-- The real answer sub-vector at a plain index list. -/
noncomputable def idxAnswers (u : UserRecord) (idx : List ℕ) : List ℝ :=
  idx.map (fun i => ((ansQ u i : ℚ) : ℝ))

/-- `_calculate_category_scores`: per band, the unweighted cosine similarity
as a rounded percentage (scipy with `w=None` averages with unit weights). -/
noncomputable def calcCategoryScores (u1 u2 : UserRecord) : List (String × ℤ) :=
  categories.map (fun c =>
    (c.1, pyRound ((1 - cosineDist (idxAnswers u1 c.2) (idxAnswers u2 c.2)
        (List.replicate c.2.length 1)) * 100)))

/-- Sum of the configured weights of the similarity-typed questions. -/
def simWeight (cfg : Config) : ℚ :=
  ((simEntries cfg).map (fun e => e.2.weight)).sum

/-- Sum of the configured weights of the complementary-typed questions. -/
def compWeight (cfg : Config) : ℚ :=
  ((compEntries cfg).map (fun e => e.2.weight)).sum

/-- Sum of the configured weights of the dealbreaker-typed questions. -/
def dealWeight (cfg : Config) : ℚ :=
  ((cfg.filter (fun e => e.2.matchType == MatchType.dealbreaker)).map
    (fun e => e.2.weight)).sum

/-- `total_weight`: the sum of every configured weight. -/
def totalWeight (cfg : Config) : ℚ :=
  (cfg.map (fun e => e.2.weight)).sum

open scoped Classical

/-- The body of `calculate_compatibility` once both records are found:
dealbreaker veto, preference filter, then the weighted total score and the
detailed breakdown. -/
noncomputable def pairScore (cfg : Config) (u1 u2 : UserRecord) : ℤ × Breakdown :=
  let dbs := checkDealbreakers cfg u1 u2
  if dbs ≠ [] then (0, Breakdown.dealbreak dbs)
  else if checkPreferences u1 u2 then
    let sim := calcSimilarity cfg u1 u2
    let comp := calcComplementarity cfg u1 u2
    let totalScore := (((simWeight cfg : ℚ) : ℝ) * sim + ((compWeight cfg : ℚ) : ℝ) * comp) /
        ((totalWeight cfg : ℚ) : ℝ)
    let pct := pyRound (totalScore * 100)
    (pct, Breakdown.matched pct (pyRound (sim * 100)) (pyRound (comp * 100))
      (calcCategoryScores u1 u2))
  else (0, Breakdown.mismatch "preference_mismatch")

/-- `calculate_compatibility`: `ValueError` when either id is unregistered,
else the pair score. -/
noncomputable def calculateCompatibility (s : DM) (id1 id2 : ℕ) : Except Err (ℤ × Breakdown) :=
  match assocLookup id1 s.users, assocLookup id2 s.users with
  | some u1, some u2 => .ok (pairScore s.questionsConfig u1 u2)
  | _, _ => .error .userNotFound

/-- One entry of the `find_matches` result: `(other_id, score, breakdown)`. -/
abbrev MatchEntry := ℕ × ℤ × Breakdown

/-- Stable descending insertion: place `x` before the first element whose
score is not larger, so equal scores keep their original relative order. -/
def insortDesc (x : MatchEntry) : List MatchEntry → List MatchEntry
  | [] => [x]
  | y :: ys => if x.2.1 < y.2.1 then y :: insortDesc x ys else x :: y :: ys

/-- The stable descending sort performed by
`match_scores.sort(key=lambda x: x[1], reverse=True)`. -/
def sortDesc : List MatchEntry → List MatchEntry
  | [] => []
  | x :: xs => insortDesc x (sortDesc xs)

/-- The collection loop of `find_matches`: score every other registered user
and keep the entries with positive score, in registry order. -/
noncomputable def collectMatches (s : DM) (userId : ℕ) :
    List (ℕ × UserRecord) → Except Err (List MatchEntry)
  | [] => .ok []
  | (pid, _) :: rest =>
    if pid = userId then collectMatches s userId rest
    else
      match calculateCompatibility s userId pid with
      | .error e => .error e
      | .ok (score, bd) =>
        match collectMatches s userId rest with
        | .error e => .error e
        | .ok tail => .ok (if 0 < score then (pid, score, bd) :: tail else tail)

/-- `find_matches(user_id, top_n)`. -/
noncomputable def findMatches (s : DM) (userId : ℕ) (topN : ℕ) :
    Except Err (List MatchEntry) :=
  match assocLookup userId s.users with
  | none => .error .userNotFound
  | some _ =>
    match collectMatches s userId s.users with
    | .error e => .error e
    | .ok l => .ok ((sortDesc l).take topN)

/-- One row of the compatibility matrix. -/
abbrev Row := List (ℕ × (ℤ × Breakdown))

/-- The compatibility matrix of `batch_processing`. -/
abbrev CompatMatrix := List (ℕ × Row)

/-- The inner loop of `batch_processing` building the row of `u1`: skip the
self pair, reuse the mirrored entry when the matrix already holds the
transposed pair, else compute it.  (The partially built current row can never
be hit by the mirror lookup because the self pair is skipped first.) -/
noncomputable def batchInner (s : DM) (u1 : ℕ) (mat : CompatMatrix) :
    List ℕ → Row → Except Err Row
  | [], row => .ok row
  | u2 :: rest, row =>
    if u2 = u1 then batchInner s u1 mat rest row
    else
      match (assocLookup u2 mat).bind (assocLookup u1) with
      | some v => batchInner s u1 mat rest (row ++ [(u2, v)])
      | none =>
        match calculateCompatibility s u1 u2 with
        | .error e => .error e
        | .ok v => batchInner s u1 mat rest (row ++ [(u2, v)])

/-- The outer loop of `batch_processing`: append each user's row. -/
noncomputable def batchOuter (s : DM) : List ℕ → CompatMatrix → Except Err CompatMatrix
  | [], mat => .ok mat
  | u1 :: rest, mat =>
    match batchInner s u1 mat (s.users.map Prod.fst) [] with
    | .error e => .error e
    | .ok row => batchOuter s rest (mat ++ [(u1, row)])

/-- `batch_processing()`. -/
noncomputable def batchProcessing (s : DM) : Except Err CompatMatrix :=
  batchOuter s (s.users.map Prod.fst) []

/-- The first stored record of an id (the canonical one, dict keys being
unique). -/
def recOf (s : DM) (userId : ℕ) : UserRecord :=
  (assocLookup userId s.users).getD ⟨[], ⟨none, none⟩⟩

/-- Modelled from the spec (§4.6): the naive full recomputation of the
compatibility matrix, every ordered pair computed directly with no symmetric
reuse; `batch_processing` is proved to refine it. -/
noncomputable def naiveMatrix (s : DM) : CompatMatrix :=
  (s.users.map Prod.fst).map (fun a =>
    (a, (s.users.map Prod.fst).filterMap (fun b =>
      if b = a then none
      else some (b, pairScore s.questionsConfig (recOf s a) (recOf s b)))))

/-- Position of an id in registration order. -/
def regIndex (s : DM) (userId : ℕ) : ℕ :=
  (s.users.map Prod.fst).indexOf userId

/-- The region where the Python float pipeline is defined (no
`ZeroDivisionError`, no `NaN`): indices in range, positive weights, a nonzero
total weight, 100 answers per user, and per user a nonzero similarity
sub-vector (when similarity questions exist) and nonzero category
sub-vectors. -/
def WF (s : DM) : Prop :=
  (∀ e ∈ s.questionsConfig, 0 < e.2.weight ∧ e.1 < 100) ∧
  totalWeight s.questionsConfig ≠ 0 ∧
  (∀ p ∈ s.users, p.2.answers.length = 100 ∧
    (simEntries s.questionsConfig ≠ [] →
      ∃ e ∈ simEntries s.questionsConfig, ansQ p.2 e.1 ≠ 0) ∧
    (∀ c ∈ categories, ∃ i ∈ c.2, ansQ p.2 i ≠ 0))

/-! ### Basic dictionary lemmas -/

theorem assocLookup_setEntry_self (k : ℕ) (v : α) (l : List (ℕ × α)) :
    assocLookup k (setEntry k v l) = some v := by
  induction l with
  | nil => simp [setEntry, assocLookup]
  | cons e rest ih =>
    by_cases h : k = e.1
    · simp [setEntry, assocLookup, h]
    · simp [setEntry, assocLookup, h, ih]

theorem assocLookup_setEntry_ne (j k : ℕ) (v : α) (l : List (ℕ × α)) (h : j ≠ k) :
    assocLookup j (setEntry k v l) = assocLookup j l := by
  induction l with
  | nil => simp [setEntry, assocLookup, h]
  | cons e rest ih =>
    by_cases hk : k = e.1
    · subst hk
      simp [setEntry, assocLookup, h]
    · by_cases hj : j = e.1
      · simp [setEntry, assocLookup, hk, hj]
      · simp [setEntry, assocLookup, hk, hj, ih]

/-! ### Unfolding lemmas for `calculate_compatibility` -/

theorem calculateCompatibility_ok (s : DM) (x y : ℕ) (ux uy : UserRecord)
    (hx : assocLookup x s.users = some ux) (hy : assocLookup y s.users = some uy) :
    calculateCompatibility s x y = .ok (pairScore s.questionsConfig ux uy) := by
  simp [calculateCompatibility, hx, hy]

theorem pairScore_dealbreak (cfg : Config) (u1 u2 : UserRecord)
    (hne : checkDealbreakers cfg u1 u2 ≠ []) :
    pairScore cfg u1 u2 = (0, Breakdown.dealbreak (checkDealbreakers cfg u1 u2)) := by
  simp [pairScore, hne]

theorem pairScore_prefMismatch (cfg : Config) (u1 u2 : UserRecord)
    (hdb : checkDealbreakers cfg u1 u2 = []) (hp : ¬ checkPreferences u1 u2) :
    pairScore cfg u1 u2 = (0, Breakdown.mismatch "preference_mismatch") := by
  simp [pairScore, hdb, hp]

theorem pairScore_matched (cfg : Config) (u1 u2 : UserRecord)
    (hdb : checkDealbreakers cfg u1 u2 = []) (hp : checkPreferences u1 u2) :
    pairScore cfg u1 u2 =
      (pyRound ((((simWeight cfg : ℚ) : ℝ) * calcSimilarity cfg u1 u2 +
          ((compWeight cfg : ℚ) : ℝ) * calcComplementarity cfg u1 u2) /
          ((totalWeight cfg : ℚ) : ℝ) * 100),
        Breakdown.matched
          (pyRound ((((simWeight cfg : ℚ) : ℝ) * calcSimilarity cfg u1 u2 +
            ((compWeight cfg : ℚ) : ℝ) * calcComplementarity cfg u1 u2) /
            ((totalWeight cfg : ℚ) : ℝ) * 100))
          (pyRound (calcSimilarity cfg u1 u2 * 100))
          (pyRound (calcComplementarity cfg u1 u2 * 100))
          (calcCategoryScores u1 u2)) := by
  simp [pairScore, hdb, hp]

/-! ### C4: registration length validation -/

/-- C4 counterexample: under a custom configuration with a single question
(`Q = len(config) = 1`), `add_user` with a 1-element answer list — the length
the claim says must be accepted — still fails, because the source compares
against the constant 100. -/
theorem spec_C4_length_check_counterexample :
    ([(1 : ℚ)/2].length = (DM.mk [(0, ⟨1, MatchType.similarity⟩)] []).questionsConfig.length) ∧
    addUser (DM.mk [(0, ⟨1, MatchType.similarity⟩)] []) 7 [(1 : ℚ)/2] none =
      .error .invalidAnswerLength := by
  exact ⟨rfl, rfl⟩

/-- C4 (amended): for every configuration, `add_user` fails with the
invalid-answer-length error exactly when the answer list does not have length
100 (the constant the source checks, whatever `len(config)` is); on success
it stores the record, overwriting any prior record for that id and leaving
every other user's record (and the configuration) unchanged. -/
theorem spec_C4_amended_length_check (s : DM) (userId : ℕ) (answers : List ℚ)
    (preferences : Option Prefs) :
    (addUser s userId answers preferences = .error .invalidAnswerLength ↔
      answers.length ≠ 100) ∧
    (answers.length = 100 →
      ∃ s', addUser s userId answers preferences = .ok s' ∧
        s'.questionsConfig = s.questionsConfig ∧
        assocLookup userId s'.users = some ⟨answers, preferences.getD ⟨none, none⟩⟩ ∧
        ∀ j, j ≠ userId → assocLookup j s'.users = assocLookup j s.users) := by
  constructor
  · constructor
    · intro h hlen
      simp [addUser, hlen] at h
    · intro hlen
      simp [addUser, hlen]
  · intro hlen
    refine ⟨DM.mk s.questionsConfig
        (setEntry userId ⟨answers, preferences.getD ⟨none, none⟩⟩ s.users),
      by simp [addUser, hlen], rfl, ?_, ?_⟩
    · exact assocLookup_setEntry_self userId _ s.users
    · intro j hj
      exact assocLookup_setEntry_ne j userId _ s.users hj

theorem spec_C4_instance :
    ((initMatchmaker none).questionsConfig = defaultQuestionConfig) ∧
    (∃ s', addUser (initMatchmaker none) 1 (List.replicate 100 ((1 : ℚ)/2)) none = .ok s' ∧
      s'.questionsConfig = (initMatchmaker none).questionsConfig ∧
      assocLookup 1 s'.users = some ⟨List.replicate 100 ((1 : ℚ)/2), ⟨none, none⟩⟩ ∧
      ∀ j, j ≠ 1 → assocLookup j s'.users = assocLookup j (initMatchmaker none).users) ∧
    (addUser (initMatchmaker none) 1 [] none = .error .invalidAnswerLength) := by
  refine ⟨rfl, ?_, ?_⟩
  · exact (spec_C4_amended_length_check (initMatchmaker none) 1
      (List.replicate 100 ((1 : ℚ)/2)) none).2 (by simp)
  · exact (spec_C4_amended_length_check (initMatchmaker none) 1 [] none).1.mpr (by simp)

/-! ### C2: dealbreaker veto -/

theorem mem_checkDealbreakers (cfg : Config) (u1 u2 : UserRecord) (i : ℕ) :
    i ∈ checkDealbreakers cfg u1 u2 ↔
      ∃ qc, (i, qc) ∈ cfg ∧ qc.matchType = MatchType.dealbreaker ∧
        7/10 < |ansQ u1 i - ansQ u2 i| := by
  constructor
  · intro h
    rcases List.mem_filterMap.mp h with ⟨e, he, hfe⟩
    by_cases hc : e.2.matchType = MatchType.dealbreaker ∧ 7/10 < |ansQ u1 e.1 - ansQ u2 e.1|
    · rw [if_pos hc] at hfe
      obtain rfl : e.1 = i := Option.some_injective _ hfe
      exact ⟨e.2, by simpa using he, hc.1, hc.2⟩
    · rw [if_neg hc] at hfe
      exact absurd hfe (by simp)
  · rintro ⟨qc, hmem, hmt, hgt⟩
    exact List.mem_filterMap.mpr ⟨(i, qc), hmem, by simp [hmt, hgt]⟩

theorem checkDealbreakers_sublist (cfg : Config) (u1 u2 : UserRecord) :
    List.Sublist (checkDealbreakers cfg u1 u2) (cfg.map Prod.fst) := by
  induction cfg with
  | nil => simp [checkDealbreakers]
  | cons e rest ih =>
    rw [checkDealbreakers, List.filterMap_cons]
    split
    · exact (ih).trans (List.sublist_cons_self _ _)
    · rename_i v hv
      have he1 : v = e.1 := by
        by_cases hc : e.2.matchType = MatchType.dealbreaker ∧ 7/10 < |ansQ u1 e.1 - ansQ u2 e.1|
        · rw [if_pos hc] at hv
          exact (Option.some_injective _ hv).symm
        · rw [if_neg hc] at hv
          exact absurd hv (by simp)
      subst he1
      exact List.Sublist.cons₂ _ ih

/-- C2: as soon as one dealbreaker-typed question differs by more than 0.7,
`calculate_compatibility` returns score 0 with the unmatched dealbreaker
breakdown, whose index list contains exactly the violated dealbreaker indices
in configuration order (a sublist of the configuration's key sequence); no
other scoring computation influences the result. -/
theorem spec_C2_dealbreaker_veto (s : DM) (x y : ℕ) (ux uy : UserRecord)
    (hx : assocLookup x s.users = some ux) (hy : assocLookup y s.users = some uy)
    (hviol : ∃ e ∈ s.questionsConfig, e.2.matchType = MatchType.dealbreaker ∧
      7/10 < |ansQ ux e.1 - ansQ uy e.1|) :
    calculateCompatibility s x y =
      .ok (0, Breakdown.dealbreak (checkDealbreakers s.questionsConfig ux uy)) ∧
    (∀ i, i ∈ checkDealbreakers s.questionsConfig ux uy ↔
      ∃ qc, (i, qc) ∈ s.questionsConfig ∧ qc.matchType = MatchType.dealbreaker ∧
        7/10 < |ansQ ux i - ansQ uy i|) ∧
    List.Sublist (checkDealbreakers s.questionsConfig ux uy) (s.questionsConfig.map Prod.fst) := by
  have hne : checkDealbreakers s.questionsConfig ux uy ≠ [] := by
    rcases hviol with ⟨e, he, hmt, hgt⟩
    intro hnil
    have : e.1 ∈ checkDealbreakers s.questionsConfig ux uy :=
      (mem_checkDealbreakers _ _ _ _).mpr ⟨e.2, by simpa using he, hmt, hgt⟩
    simp [hnil] at this
  refine ⟨?_, fun i => mem_checkDealbreakers _ _ _ i, checkDealbreakers_sublist _ _ _⟩
  rw [calculateCompatibility_ok s x y ux uy hx hy, pairScore_dealbreak _ _ _ hne]

theorem spec_C2_instance :
    calculateCompatibility (DM.mk [(0, ⟨10, MatchType.dealbreaker⟩)]
        [(1, ⟨[0], ⟨none, none⟩⟩), (2, ⟨[1], ⟨none, none⟩⟩)]) 1 2 =
      .ok (0, Breakdown.dealbreak (checkDealbreakers [(0, ⟨10, MatchType.dealbreaker⟩)]
        ⟨[0], ⟨none, none⟩⟩ ⟨[1], ⟨none, none⟩⟩)) :=
  (spec_C2_dealbreaker_veto
    (DM.mk [(0, ⟨10, MatchType.dealbreaker⟩)]
      [(1, ⟨[0], ⟨none, none⟩⟩), (2, ⟨[1], ⟨none, none⟩⟩)])
    1 2 ⟨[0], ⟨none, none⟩⟩ ⟨[1], ⟨none, none⟩⟩ rfl rfl
    ⟨(0, ⟨10, MatchType.dealbreaker⟩), by simp, rfl,
      by norm_num [ansQ, List.getD_cons_zero]⟩).1

/-! ### C5: preference filtering -/

/-- C5: once the dealbreaker check passes, (1) a pair with either preference
dict empty passes the preference check, (2) when both users record a location
the check fails exactly when the Euclidean distance exceeds the smaller of
the two `max_distance` bounds (an absent bound never being exceeded), and
(3) a failed preference check makes `calculate_compatibility` return score 0
with the `preference_mismatch` reason. -/
theorem spec_C5_preference_check (s : DM) (x y : ℕ) (ux uy : UserRecord)
    (hx : assocLookup x s.users = some ux) (hy : assocLookup y s.users = some uy)
    (hdb : checkDealbreakers s.questionsConfig ux uy = []) :
    ((ux.prefs.isEmptyDict = true ∨ uy.prefs.isEmptyDict = true) → checkPreferences ux uy) ∧
    (∀ l1 l2, ux.prefs.location = some l1 → uy.prefs.location = some l2 →
      (¬ checkPreferences ux uy ↔
        ∃ m : ℚ, optMin ux.prefs.maxDistance uy.prefs.maxDistance = some m ∧
          (m : ℝ) < calcDistance l1 l2)) ∧
    (¬ checkPreferences ux uy →
      calculateCompatibility s x y = .ok (0, Breakdown.mismatch "preference_mismatch")) := by
  refine ⟨?_, ?_, ?_⟩
  · intro h
    rcases h with h | h <;> simp [checkPreferences, h]
  · intro l1 l2 h1 h2
    have he1 : ux.prefs.isEmptyDict = false := by
      simp [Prefs.isEmptyDict, h1]
    have he2 : uy.prefs.isEmptyDict = false := by
      simp [Prefs.isEmptyDict, h2]
    rw [checkPreferences, he1, he2]
    simp only [Bool.or_self, Bool.false_eq_true, if_false, h1, h2, not_not]
    cases hm : optMin ux.prefs.maxDistance uy.prefs.maxDistance with
    | none => simp [exceedsBound]
    | some m =>
      constructor
      · intro h
        exact ⟨m, rfl, by simpa [exceedsBound] using h⟩
      · rintro ⟨m', hm', hlt⟩
        obtain rfl : m = m' := Option.some_injective _ hm'
        simpa [exceedsBound] using hlt
  · intro hp
    rw [calculateCompatibility_ok s x y ux uy hx hy, pairScore_prefMismatch _ _ _ hdb hp]

theorem spec_C5_instance :
    ¬ checkPreferences ⟨[0], ⟨some (0, 0), some 1⟩⟩ ⟨[0], ⟨some (3, 4), none⟩⟩ ∧
    calculateCompatibility (DM.mk [(0, ⟨10, MatchType.dealbreaker⟩)]
        [(1, ⟨[0], ⟨some (0, 0), some 1⟩⟩), (2, ⟨[0], ⟨some (3, 4), none⟩⟩)]) 1 2 =
      .ok (0, Breakdown.mismatch "preference_mismatch") := by
  have hdb : checkDealbreakers [(0, ⟨10, MatchType.dealbreaker⟩)]
      ⟨[0], ⟨some (0, 0), some 1⟩⟩ ⟨[0], ⟨some (3, 4), none⟩⟩ = [] := by
    norm_num [checkDealbreakers, ansQ, List.getD_cons_zero]
  have h5 := spec_C5_preference_check
    (DM.mk [(0, ⟨10, MatchType.dealbreaker⟩)]
      [(1, ⟨[0], ⟨some (0, 0), some 1⟩⟩), (2, ⟨[0], ⟨some (3, 4), none⟩⟩)])
    1 2 ⟨[0], ⟨some (0, 0), some 1⟩⟩ ⟨[0], ⟨some (3, 4), none⟩⟩ rfl rfl hdb
  have hdist : ((1 : ℚ) : ℝ) < calcDistance (0, 0) (3, 4) := by
    have : calcDistance (0, 0) (3, 4) = 5 := by
      rw [calcDistance]
      push_cast
      rw [show ((0 : ℝ) - 3) ^ 2 + ((0 : ℝ) - 4) ^ 2 = 5 ^ 2 by norm_num]
      exact Real.sqrt_sq (by norm_num)
    rw [this]
    norm_num
  have hfail : ¬ checkPreferences ⟨[0], ⟨some (0, 0), some 1⟩⟩ ⟨[0], ⟨some (3, 4), none⟩⟩ :=
    (h5.2.1 (0, 0) (3, 4) rfl rfl).mpr ⟨1, rfl, hdist⟩
  exact ⟨hfail, h5.2.2 hfail⟩

/-! ### C1: symmetry of `calculate_compatibility` -/

theorem checkDealbreakers_comm (cfg : Config) (u1 u2 : UserRecord) :
    checkDealbreakers cfg u1 u2 = checkDealbreakers cfg u2 u1 := by
  unfold checkDealbreakers
  apply List.filterMap_congr
  intro e _he
  exact if_congr (by rw [abs_sub_comm]) rfl rfl

theorem calcDistance_comm (l1 l2 : ℚ × ℚ) : calcDistance l1 l2 = calcDistance l2 l1 := by
  unfold calcDistance
  congr 1
  ring

theorem optMin_comm (a b : Option ℚ) : optMin a b = optMin b a := by
  cases a <;> cases b <;> simp [optMin, min_comm]

theorem checkPreferences_comm (u1 u2 : UserRecord) :
    checkPreferences u1 u2 ↔ checkPreferences u2 u1 := by
  unfold checkPreferences
  rw [Bool.or_comm]
  cases h : (u2.prefs.isEmptyDict || u1.prefs.isEmptyDict) with
  | true => simp
  | false =>
    simp only [Bool.false_eq_true, if_false]
    cases h1 : u1.prefs.location <;> cases h2 : u2.prefs.location <;> simp
    rw [calcDistance_comm, optMin_comm]

theorem cosineDist_comm (u v w : List ℝ) : cosineDist u v w = cosineDist v u w := by
  unfold cosineDist
  rw [List.zipWith_comm_of_comm (· * ·) mul_comm u v, mul_comm (npAverage (u.map (· ^ 2)) w)]

theorem calcSimilarity_comm (cfg : Config) (u1 u2 : UserRecord) :
    calcSimilarity cfg u1 u2 = calcSimilarity cfg u2 u1 := by
  simp only [calcSimilarity]
  rw [cosineDist_comm]

theorem calcComplementarity_comm (cfg : Config) (u1 u2 : UserRecord) :
    calcComplementarity cfg u1 u2 = calcComplementarity cfg u2 u1 := by
  simp only [calcComplementarity]
  rw [List.zipWith_comm_of_comm (fun x y => |x - y|) (fun x y => abs_sub_comm x y)
    (subAnswers u1 (compEntries cfg)) (subAnswers u2 (compEntries cfg))]

theorem calcCategoryScores_comm (u1 u2 : UserRecord) :
    calcCategoryScores u1 u2 = calcCategoryScores u2 u1 := by
  unfold calcCategoryScores
  apply List.map_congr_left
  intro c _hc
  rw [cosineDist_comm]

theorem pairScore_comm (cfg : Config) (u1 u2 : UserRecord) :
    pairScore cfg u1 u2 = pairScore cfg u2 u1 := by
  unfold pairScore
  rw [checkDealbreakers_comm]
  by_cases hdb : checkDealbreakers cfg u2 u1 = []
  · simp only [hdb, ne_eq, not_true_eq_false, if_false]
    by_cases hp : checkPreferences u1 u2
    · rw [if_pos hp, if_pos ((checkPreferences_comm u1 u2).mp hp),
        calcSimilarity_comm, calcComplementarity_comm, calcCategoryScores_comm]
    · rw [if_neg hp, if_neg (fun hp' => hp ((checkPreferences_comm u1 u2).mpr hp'))]
  · simp only [hdb, ne_eq, not_false_eq_true, if_true]

theorem calculateCompatibility_comm (s : DM) (x y : ℕ) :
    calculateCompatibility s x y = calculateCompatibility s y x := by
  unfold calculateCompatibility
  cases hx : assocLookup x s.users <;> cases hy : assocLookup y s.users <;>
    simp [pairScore_comm]

/-- C1: for every pair of distinct registered users the compatibility result
(score and breakdown, including the dealbreaker index list when the pair is
vetoed) is identical in both argument orders. -/
theorem spec_C1_symmetry (s : DM) (x y : ℕ) (ux uy : UserRecord)
    (hx : assocLookup x s.users = some ux) (hy : assocLookup y s.users = some uy)
    (hxy : x ≠ y) :
    calculateCompatibility s x y = calculateCompatibility s y x :=
  calculateCompatibility_comm s x y

theorem spec_C1_instance :
    calculateCompatibility (DM.mk [(0, ⟨10, MatchType.dealbreaker⟩)]
        [(1, ⟨[0], ⟨none, none⟩⟩), (2, ⟨[1], ⟨none, none⟩⟩)]) 1 2 =
      calculateCompatibility (DM.mk [(0, ⟨10, MatchType.dealbreaker⟩)]
        [(1, ⟨[0], ⟨none, none⟩⟩), (2, ⟨[1], ⟨none, none⟩⟩)]) 2 1 :=
  spec_C1_symmetry (DM.mk [(0, ⟨10, MatchType.dealbreaker⟩)]
      [(1, ⟨[0], ⟨none, none⟩⟩), (2, ⟨[1], ⟨none, none⟩⟩)])
    1 2 ⟨[0], ⟨none, none⟩⟩ ⟨[1], ⟨none, none⟩⟩ rfl rfl (by decide)

/-! ### C3: the overall-percentage formula -/

theorem totalWeight_partition (cfg : Config) :
    totalWeight cfg = simWeight cfg + compWeight cfg + dealWeight cfg := by
  induction cfg with
  | nil => simp [totalWeight, simWeight, compWeight, dealWeight, simEntries, compEntries]
  | cons e rest ih =>
    cases hmt : e.2.matchType <;>
      simp [totalWeight, simWeight, compWeight, dealWeight, simEntries, compEntries,
        List.filter_cons, hmt, beq_iff_eq] at ih ⊢ <;>
      rw [ih] <;> ring

/-- C3: for a registered pair passing the dealbreaker and preference checks
(and a configuration whose total weight is nonzero, as Python requires to
divide), the returned percentage is `round` of
`100 * (Wsim*similarity + Wcmp*complementary) / (Wsim + Wcmp + Wdeal)`, the
dealbreaker weight sum appearing in the denominator though dealbreakers
contribute no numerator term. -/
theorem spec_C3_overall_formula (s : DM) (x y : ℕ) (ux uy : UserRecord)
    (hx : assocLookup x s.users = some ux) (hy : assocLookup y s.users = some uy)
    (hdb : checkDealbreakers s.questionsConfig ux uy = [])
    (hpref : checkPreferences ux uy)
    (htw : totalWeight s.questionsConfig ≠ 0) :
    ∃ bd, calculateCompatibility s x y = .ok
      (pyRound (100 * (((simWeight s.questionsConfig : ℚ) : ℝ) * calcSimilarity s.questionsConfig ux uy +
          ((compWeight s.questionsConfig : ℚ) : ℝ) * calcComplementarity s.questionsConfig ux uy) /
        (((simWeight s.questionsConfig : ℚ) : ℝ) + ((compWeight s.questionsConfig : ℚ) : ℝ) +
          ((dealWeight s.questionsConfig : ℚ) : ℝ))), bd) := by
  rw [calculateCompatibility_ok s x y ux uy hx hy, pairScore_matched _ _ _ hdb hpref]
  have harith : (((simWeight s.questionsConfig : ℚ) : ℝ) * calcSimilarity s.questionsConfig ux uy +
      ((compWeight s.questionsConfig : ℚ) : ℝ) * calcComplementarity s.questionsConfig ux uy) /
      ((totalWeight s.questionsConfig : ℚ) : ℝ) * 100 =
      100 * (((simWeight s.questionsConfig : ℚ) : ℝ) * calcSimilarity s.questionsConfig ux uy +
        ((compWeight s.questionsConfig : ℚ) : ℝ) * calcComplementarity s.questionsConfig ux uy) /
      (((simWeight s.questionsConfig : ℚ) : ℝ) + ((compWeight s.questionsConfig : ℚ) : ℝ) +
        ((dealWeight s.questionsConfig : ℚ) : ℝ)) := by
    rw [totalWeight_partition]
    push_cast
    ring
  rw [harith]
  exact ⟨_, rfl⟩

theorem spec_C3_instance :
    ∃ bd, calculateCompatibility (DM.mk [(0, ⟨3, MatchType.similarity⟩), (1, ⟨1, MatchType.dealbreaker⟩)]
        [(1, ⟨[1, 0], ⟨none, none⟩⟩), (2, ⟨[1, 0], ⟨none, none⟩⟩)]) 1 2 = .ok
      (pyRound (100 * (((simWeight [(0, ⟨3, MatchType.similarity⟩), (1, ⟨1, MatchType.dealbreaker⟩)] : ℚ) : ℝ) *
          calcSimilarity [(0, ⟨3, MatchType.similarity⟩), (1, ⟨1, MatchType.dealbreaker⟩)]
            ⟨[1, 0], ⟨none, none⟩⟩ ⟨[1, 0], ⟨none, none⟩⟩ +
          ((compWeight [(0, ⟨3, MatchType.similarity⟩), (1, ⟨1, MatchType.dealbreaker⟩)] : ℚ) : ℝ) *
          calcComplementarity [(0, ⟨3, MatchType.similarity⟩), (1, ⟨1, MatchType.dealbreaker⟩)]
            ⟨[1, 0], ⟨none, none⟩⟩ ⟨[1, 0], ⟨none, none⟩⟩) /
        (((simWeight [(0, ⟨3, MatchType.similarity⟩), (1, ⟨1, MatchType.dealbreaker⟩)] : ℚ) : ℝ) +
          ((compWeight [(0, ⟨3, MatchType.similarity⟩), (1, ⟨1, MatchType.dealbreaker⟩)] : ℚ) : ℝ) +
          ((dealWeight [(0, ⟨3, MatchType.similarity⟩), (1, ⟨1, MatchType.dealbreaker⟩)] : ℚ) : ℝ))), bd) := by
  exact spec_C3_overall_formula
    (DM.mk [(0, ⟨3, MatchType.similarity⟩), (1, ⟨1, MatchType.dealbreaker⟩)]
      [(1, ⟨[1, 0], ⟨none, none⟩⟩), (2, ⟨[1, 0], ⟨none, none⟩⟩)])
    1 2 ⟨[1, 0], ⟨none, none⟩⟩ ⟨[1, 0], ⟨none, none⟩⟩ rfl rfl
    (by norm_num [checkDealbreakers, ansQ, List.getD_cons_zero])
    (by simp [checkPreferences, Prefs.isEmptyDict])
    (by norm_num [totalWeight])

/-! ### C9: the complementary optimum -/

theorem zipWith_map_same (l : List α) (g h : α → ℝ) (f : ℝ → ℝ → ℝ) :
    List.zipWith f (l.map g) (l.map h) = l.map (fun x => f (g x) (h x)) := by
  induction l with
  | nil => simp
  | cons a t ih => simp [ih]

theorem pyRound_intCast (n : ℤ) : pyRound ((n : ℤ) : ℝ) = n := by
  unfold pyRound
  rw [Int.fract_intCast]
  norm_num

theorem calcComplementarity_eq_one (cfg : Config) (u1 u2 : UserRecord)
    (hw : ∀ e ∈ compEntries cfg, 0 < e.2.weight)
    (hdiff : ∀ e ∈ compEntries cfg, |ansQ u1 e.1 - ansQ u2 e.1| = 1/2) :
    calcComplementarity cfg u1 u2 = 1 := by
  by_cases hE : compEntries cfg = []
  · simp [calcComplementarity, hE]
  · simp only [calcComplementarity, hE, if_false, subAnswers, normWeights]
    rw [zipWith_map_same]
    have hscores : ((compEntries cfg).map fun e =>
        |((ansQ u1 e.1 : ℚ) : ℝ)  - ((ansQ u2 e.1 : ℚ) : ℝ)|) =
        (compEntries cfg).map (fun e => ((1:ℝ)/2)) := by
      apply List.map_congr_left
      intro e he
      have : |((ansQ u1 e.1 : ℚ) : ℝ) - ((ansQ u2 e.1 : ℚ) : ℝ)| =
          ((|ansQ u1 e.1 - ansQ u2 e.1| : ℚ) : ℝ) := by push_cast; ring
      rw [this, hdiff e he]
      norm_num
    rw [hscores, List.map_map]
    have hone : ((fun d => 1 - |d - 1/2| * 2) ∘ fun e : ℕ × QC => ((1:ℝ)/2)) =
        fun e : ℕ × QC => (1:ℝ) := by
      funext e
      simp
    rw [hone]
    set W : ℝ := ((compEntries cfg).map fun e => ((e.2.weight : ℚ) : ℝ)).sum with hW
    have hWpos : 0 < W := by
      rw [hW]
      apply List.sum_pos
      · intro x hx
        rcases List.mem_map.mp hx with ⟨e, he, rfl⟩
        exact_mod_cast hw e he
      · simp [hE]
    rw [npAverage, List.map_map, zipWith_map_same]
    have hqq : ((compEntries cfg).map fun x : ℕ × QC =>
        (((x.2.weight : ℚ) : ℝ) / W) * 1).sum = W / W := by
      have : ((compEntries cfg).map fun x : ℕ × QC =>
          (((x.2.weight : ℚ) : ℝ) / W) * 1) = (compEntries cfg).map fun x : ℕ × QC =>
          ((x.2.weight : ℚ) : ℝ) * W⁻¹ := by
        apply List.map_congr_left
        intro e _he
        rw [mul_one, div_eq_mul_inv]
      rw [this, List.sum_map_mul_right, ← hW, div_eq_mul_inv]
    have hws : (((compEntries cfg).map fun x : ℕ × QC =>
        ((x.2.weight : ℚ) : ℝ) / W)).sum = W / W := by
      have : ((compEntries cfg).map fun x : ℕ × QC =>
          ((x.2.weight : ℚ) : ℝ) / W) = (compEntries cfg).map fun x : ℕ × QC =>
          ((x.2.weight : ℚ) : ℝ) * W⁻¹ := by
        apply List.map_congr_left
        intro e _he
        rw [div_eq_mul_inv]
      rw [this, List.sum_map_mul_right, ← hW, div_eq_mul_inv]
    rw [Function.comp_def]
    rw [hqq, hws, div_self hWpos.ne', div_one]

/-- C9: for a registered pair passing the dealbreaker and preference checks
whose answers differ by exactly 0.5 on every complementary-typed question
(under the data-model invariant of positive weights), the reported
complementary score is exactly 100. -/
theorem spec_C9_complementary_optimum (s : DM) (x y : ℕ) (ux uy : UserRecord)
    (hx : assocLookup x s.users = some ux) (hy : assocLookup y s.users = some uy)
    (hw : ∀ e ∈ s.questionsConfig, 0 < e.2.weight)
    (hdb : checkDealbreakers s.questionsConfig ux uy = [])
    (hpref : checkPreferences ux uy)
    (hdiff : ∀ e ∈ s.questionsConfig, e.2.matchType = MatchType.complementary →
      |ansQ ux e.1 - ansQ uy e.1| = 1/2) :
    ∃ p sv cats, calculateCompatibility s x y = .ok
      (p, Breakdown.matched p sv 100 cats) := by
  have hcomp : calcComplementarity s.questionsConfig ux uy = 1 := by
    apply calcComplementarity_eq_one
    · intro e he
      exact hw e (List.mem_of_mem_filter he)
    · intro e he
      have hmem := List.mem_of_mem_filter he
      have hmt : e.2.matchType = MatchType.complementary := by
        have := List.of_mem_filter he
        simpa [beq_iff_eq] using this
      exact hdiff e hmem hmt
  rw [calculateCompatibility_ok s x y ux uy hx hy, pairScore_matched _ _ _ hdb hpref, hcomp]
  have h100 : pyRound ((1 : ℝ) * 100) = 100 := by
    rw [one_mul, show ((100 : ℝ)) = (((100 : ℤ) : ℤ) : ℝ) by norm_num, pyRound_intCast]
  rw [h100]
  exact ⟨_, _, _, rfl⟩

theorem spec_C9_instance :
    ∃ p sv cats, calculateCompatibility (DM.mk [(0, ⟨2, MatchType.complementary⟩)]
        [(1, ⟨[0], ⟨none, none⟩⟩), (2, ⟨[1/2], ⟨none, none⟩⟩)]) 1 2 = .ok
      (p, Breakdown.matched p sv 100 cats) := by
  apply spec_C9_complementary_optimum
    (DM.mk [(0, ⟨2, MatchType.complementary⟩)]
      [(1, ⟨[0], ⟨none, none⟩⟩), (2, ⟨[1/2], ⟨none, none⟩⟩)])
    1 2 ⟨[0], ⟨none, none⟩⟩ ⟨[1/2], ⟨none, none⟩⟩ rfl rfl
  · intro e he
    simp only [List.mem_singleton] at he
    subst he
    norm_num
  · simp [checkDealbreakers]
  · simp [checkPreferences, Prefs.isEmptyDict]
  · intro e he _hmt
    simp only [List.mem_singleton] at he
    subst he
    show |ansQ ⟨[0], ⟨none, none⟩⟩ 0 - ansQ ⟨[1/2], ⟨none, none⟩⟩ 0| = 1/2
    rw [show ansQ ⟨[0], ⟨none, none⟩⟩ 0 = 0 from rfl,
      show ansQ ⟨[1/2], ⟨none, none⟩⟩ 0 = 1/2 from rfl,
      zero_sub, abs_neg, abs_of_nonneg (by norm_num : (0:ℚ) ≤ 1/2)]

/-! ### C8: identical answer vectors -/

theorem sumPosOfMem (l : List ℝ) (h0 : ∀ x ∈ l, 0 ≤ x) (x0 : ℝ) (hmem : x0 ∈ l)
    (hx0 : 0 < x0) : 0 < l.sum := by
  induction l with
  | nil => simp at hmem
  | cons a t ih =>
    rcases List.mem_cons.mp hmem with rfl | hmem'
    · have ht : 0 ≤ t.sum := List.sum_nonneg (fun x hx => h0 x (List.mem_cons_of_mem _ hx))
      simpa using add_pos_of_pos_of_nonneg hx0 ht
    · have ha : 0 ≤ a := h0 a (List.mem_cons_self a t)
      have ht : 0 < t.sum := ih (fun x hx => h0 x (List.mem_cons_of_mem _ hx)) hmem'
      simpa using add_pos_of_nonneg_of_pos ha ht

theorem ansQ_congr (u1 u2 : UserRecord) (h : u1.answers = u2.answers) (i : ℕ) :
    ansQ u1 i = ansQ u2 i := by
  unfold ansQ
  rw [h]

theorem calcSimilarity_self (cfg : Config) (u1 u2 : UserRecord)
    (hans : u1.answers = u2.answers)
    (hw : ∀ e ∈ simEntries cfg, 0 < e.2.weight)
    (hnz : ∃ e ∈ simEntries cfg, ansQ u1 e.1 ≠ 0) :
    calcSimilarity cfg u1 u2 = 1 := by
  obtain ⟨e0, he0, hnz0⟩ := hnz
  have hE : simEntries cfg ≠ [] := List.ne_nil_of_mem he0
  simp only [calcSimilarity, hE, if_false, subAnswers, normWeights]
  have hsub : (simEntries cfg).map (fun e => ((ansQ u2 e.1 : ℚ) : ℝ)) =
      (simEntries cfg).map (fun e => ((ansQ u1 e.1 : ℚ) : ℝ)) := by
    apply List.map_congr_left
    intro e _he
    rw [ansQ_congr u1 u2 hans]
  rw [hsub]
  set g : ℕ × QC → ℝ := fun e => ((ansQ u1 e.1 : ℚ) : ℝ) with hg
  set wR : ℕ × QC → ℝ := fun e => ((e.2.weight : ℚ) : ℝ) with hwR
  set W : ℝ := ((simEntries cfg).map wR).sum with hWdef
  have hWpos : 0 < W := by
    rw [hWdef]
    apply List.sum_pos
    · intro x hx
      rcases List.mem_map.mp hx with ⟨e, he, rfl⟩
      simp only [hwR]
      exact_mod_cast hw e he
    · simp [hE]
  rw [cosineDist, List.map_map, List.map_map, zipWith_map_same]
  have huu : ((fun x => x ^ 2) ∘ g) = fun e : ℕ × QC => g e * g e := by
    funext e
    simp [pow_two]
  rw [huu]
  simp only [npAverage]
  rw [zipWith_map_same]
  have hwcomp : ((fun x => x / W) ∘ wR) = fun e : ℕ × QC => wR e / W := rfl
  rw [hwcomp]
  set S : ℝ := ((simEntries cfg).map (fun e => wR e / W * (g e * g e))).sum with hSdef
  set T : ℝ := ((simEntries cfg).map (fun e => wR e / W)).sum with hTdef
  have hT1 : T = 1 := by
    rw [hTdef]
    have : ((simEntries cfg).map (fun e => wR e / W)) =
        (simEntries cfg).map (fun e => wR e * W⁻¹) := by
      apply List.map_congr_left
      intro e _he
      rw [div_eq_mul_inv]
    rw [this, List.sum_map_mul_right, ← hWdef, ← div_eq_mul_inv, div_self hWpos.ne']
  have hSpos : 0 < S := by
    rw [hSdef]
    refine sumPosOfMem _ ?_ (wR e0 / W * (g e0 * g e0)) ?_ ?_
    · intro x hx
      rcases List.mem_map.mp hx with ⟨e, he, rfl⟩
      have hw0 : (0:ℝ) ≤ wR e := le_of_lt (by simp only [hwR]; exact_mod_cast hw e he)
      exact mul_nonneg (div_nonneg hw0 hWpos.le) (mul_self_nonneg _)
    · exact List.mem_map.mpr ⟨e0, he0, rfl⟩
    · apply mul_pos (div_pos (by simp only [hwR]; exact_mod_cast hw e0 he0) hWpos)
      apply mul_self_pos.mpr
      simp only [hg]
      exact_mod_cast hnz0
  have hApos : 0 < S / T := by
    rw [hT1]
    simpa using hSpos
  rw [Real.sqrt_mul_self (le_of_lt hApos), div_self (ne_of_gt hApos)]
  norm_num

theorem calcComplementarity_self (cfg : Config) (u1 u2 : UserRecord)
    (hans : u1.answers = u2.answers) (hE : compEntries cfg ≠ []) :
    calcComplementarity cfg u1 u2 = 0 := by
  simp only [calcComplementarity, hE, if_false, subAnswers, normWeights]
  rw [zipWith_map_same]
  have hdz : ((compEntries cfg).map fun e =>
      |((ansQ u1 e.1 : ℚ) : ℝ) - ((ansQ u2 e.1 : ℚ) : ℝ)|) =
      (compEntries cfg).map (fun e => (0:ℝ)) := by
    apply List.map_congr_left
    intro e _he
    rw [ansQ_congr u1 u2 hans]
    simp
  rw [hdz, List.map_map]
  have hsc : ((fun d => 1 - |d - 1/2| * 2) ∘ fun e : ℕ × QC => (0:ℝ)) =
      fun e : ℕ × QC => (0:ℝ) := by
    funext e
    norm_num
    rw [abs_of_nonneg (by norm_num : (0:ℝ) ≤ 1/2)]
    ring
  rw [hsc, npAverage, List.map_map, zipWith_map_same]
  have : ((compEntries cfg).map fun x : ℕ × QC =>
      ((fun x => x / ((compEntries cfg).map fun e => ((e.2.weight : ℚ) : ℝ)).sum) ∘
        fun e : ℕ × QC => ((e.2.weight : ℚ) : ℝ)) x * (0:ℝ)) =
      (compEntries cfg).map fun x : ℕ × QC => (0:ℝ) := by
    apply List.map_congr_left
    intro e _he
    simp
  rw [this]
  simp

theorem checkDealbreakers_eq_nil_of_answers_eq (cfg : Config) (u1 u2 : UserRecord)
    (hans : u1.answers = u2.answers) : checkDealbreakers cfg u1 u2 = [] := by
  unfold checkDealbreakers
  rw [List.filterMap_eq_nil]
  intro e _he
  rw [ansQ_congr u1 u2 hans e.1]
  norm_num

theorem pyRound_zero : pyRound 0 = 0 := by
  have := pyRound_intCast 0
  norm_num at this
  exact this

theorem pyRound_hundred : pyRound 100 = 100 := by
  have := pyRound_intCast 100
  norm_num at this
  exact this

theorem zipWith_mul_zero_left (u v : List ℝ) (hu : ∀ x ∈ u, x = 0) :
    ∀ z ∈ List.zipWith (· * ·) u v, z = 0 := by
  induction u generalizing v with
  | nil => simp
  | cons a t ih =>
    cases v with
    | nil => simp
    | cons b tv =>
      intro z hz
      rcases List.mem_cons.mp hz with rfl | hz'
      · rw [hu a (List.mem_cons_self a t)]
        ring
      · exact ih tv (fun x hx => hu x (List.mem_cons_of_mem _ hx)) z hz'

theorem zipWith_mul_zero_right (u v : List ℝ) (hv : ∀ x ∈ v, x = 0) :
    ∀ z ∈ List.zipWith (· * ·) u v, z = 0 := by
  induction u generalizing v with
  | nil => simp
  | cons a t ih =>
    cases v with
    | nil => simp
    | cons b tv =>
      intro z hz
      rcases List.mem_cons.mp hz with rfl | hz'
      · rw [hv b (List.mem_cons_self b tv)]
        ring
      · exact ih tv (fun x hx => hv x (List.mem_cons_of_mem _ hx)) z hz'

theorem cosineDist_zero_left (u v w : List ℝ) (hu : ∀ x ∈ u, x = 0) :
    cosineDist u v w = 1 := by
  unfold cosineDist npAverage
  have huv : (List.zipWith (· * ·) w (List.zipWith (· * ·) u v)).sum = 0 :=
    List.sum_eq_zero (zipWith_mul_zero_right _ _ (zipWith_mul_zero_left u v hu))
  have huu : (List.zipWith (· * ·) w (u.map (· ^ 2))).sum = 0 := by
    apply List.sum_eq_zero
    apply zipWith_mul_zero_right
    intro x hx
    rcases List.mem_map.mp hx with ⟨a, ha, rfl⟩
    rw [hu a ha]
    ring
  rw [huv, huu]
  simp

theorem calcSimilarity_zero_left (cfg : Config) (u1 u2 : UserRecord)
    (hE : simEntries cfg ≠ []) (hz : ∀ e ∈ simEntries cfg, ansQ u1 e.1 = 0) :
    calcSimilarity cfg u1 u2 = 0 := by
  simp only [calcSimilarity, hE, if_false]
  rw [cosineDist_zero_left]
  · ring
  · intro x hx
    rcases List.mem_map.mp hx with ⟨e, he, rfl⟩
    rw [hz e he]
    norm_num

theorem getD_replicate (n i : ℕ) (c d : ℚ) :
    (List.replicate n c).getD i d = if i < n then c else d := by
  induction n generalizing i with
  | zero => simp
  | succ m ih =>
    cases i with
    | zero => simp [List.replicate_succ]
    | succ j =>
      rw [List.replicate_succ]
      simpa [List.getD_cons_succ, Nat.succ_lt_succ_iff] using ih j

theorem ansQ_replicate (n i : ℕ) (c : ℚ) (p : Prefs) (hin : i < n) :
    ansQ ⟨List.replicate n c, p⟩ i = c := by
  unfold ansQ
  simp only [getD_replicate, hin, if_true]

theorem ansQ_replicate_zero (n i : ℕ) (p : Prefs) :
    ansQ ⟨List.replicate n (0:ℚ), p⟩ i = 0 := by
  unfold ansQ
  rw [getD_replicate]
  split <;> rfl

/-- C8 counterexample: two registered users sharing the all-zero answer
vector (a vector the claim's wording admits) do not get
`similarity_score = 100`.  In Python, `scipy` produces `NaN` on the zero
vectors and `round(nan)` raises `ValueError`; in this total embedding the
division junk yields similarity 0, so the reported similarity score is 0 —
on either reading the claimed 100 is not returned. -/
theorem spec_C8_zero_vector_counterexample :
    calculateCompatibility (DM.mk defaultQuestionConfig
        [(1, ⟨List.replicate 100 0, ⟨none, none⟩⟩),
         (2, ⟨List.replicate 100 0, ⟨none, none⟩⟩)]) 1 2 =
      .ok (0, Breakdown.matched 0 0 0
        [("values", 0), ("lifestyle", 0), ("personality", 0), ("interests", 0)]) := by
  have hdb : checkDealbreakers defaultQuestionConfig
      ⟨List.replicate 100 0, ⟨none, none⟩⟩ ⟨List.replicate 100 0, ⟨none, none⟩⟩ = [] :=
    checkDealbreakers_eq_nil_of_answers_eq _ _ _ rfl
  have hpref : checkPreferences ⟨List.replicate 100 0, ⟨none, none⟩⟩
      ⟨List.replicate 100 0, ⟨none, none⟩⟩ := by
    simp [checkPreferences, Prefs.isEmptyDict]
  rw [calculateCompatibility_ok (DM.mk defaultQuestionConfig
      [(1, ⟨List.replicate 100 0, ⟨none, none⟩⟩),
       (2, ⟨List.replicate 100 0, ⟨none, none⟩⟩)]) 1 2
      ⟨List.replicate 100 0, ⟨none, none⟩⟩ ⟨List.replicate 100 0, ⟨none, none⟩⟩ rfl rfl,
    pairScore_matched _ _ _ hdb hpref]
  have hsim : calcSimilarity defaultQuestionConfig
      ⟨List.replicate 100 0, ⟨none, none⟩⟩ ⟨List.replicate 100 0, ⟨none, none⟩⟩ = 0 := by
    apply calcSimilarity_zero_left
    · decide
    · intro e _he
      exact ansQ_replicate_zero 100 e.1 _
  have hcomp : calcComplementarity defaultQuestionConfig
      ⟨List.replicate 100 0, ⟨none, none⟩⟩ ⟨List.replicate 100 0, ⟨none, none⟩⟩ = 0 := by
    apply calcComplementarity_self _ _ _ rfl
    decide
  have hcats : calcCategoryScores ⟨List.replicate 100 0, ⟨none, none⟩⟩
      ⟨List.replicate 100 0, ⟨none, none⟩⟩ =
      [("values", 0), ("lifestyle", 0), ("personality", 0), ("interests", 0)] := by
    have hcd : ∀ idx : List ℕ,
        cosineDist (idxAnswers ⟨List.replicate 100 0, ⟨none, none⟩⟩ idx)
          (idxAnswers ⟨List.replicate 100 0, ⟨none, none⟩⟩ idx)
          (List.replicate idx.length 1) = 1 := by
      intro idx
      apply cosineDist_zero_left
      intro x hx
      rcases List.mem_map.mp hx with ⟨i, _hi, rfl⟩
      rw [ansQ_replicate_zero 100 i]
      norm_num
    simp only [calcCategoryScores, categories, List.map_cons, List.map_nil, hcd]
    norm_num [pyRound_zero]
  rw [hsim, hcomp, hcats]
  norm_num [pyRound_zero]

/-- C8 (amended): under the default configuration, two registered users with
identical answer vectors and no preference conflict — whose shared vector is
nonzero on the similarity indices and on each category band, so that every
cosine in the Python pipeline is defined — are reported with
`similarity_score = 100` and `complementary_score = 0`. -/
theorem spec_C8_amended_identical_answers (s : DM) (x y : ℕ) (ux uy : UserRecord)
    (hx : assocLookup x s.users = some ux) (hy : assocLookup y s.users = some uy)
    (hcfg : s.questionsConfig = defaultQuestionConfig)
    (hans : ux.answers = uy.answers)
    (hpref : checkPreferences ux uy)
    (hnzsim : ∃ e ∈ simEntries defaultQuestionConfig, ansQ ux e.1 ≠ 0)
    (hnzcat : ∀ c ∈ categories, ∃ i ∈ c.2, ansQ ux i ≠ 0) :
    ∃ p cats, calculateCompatibility s x y = .ok
      (p, Breakdown.matched p 100 0 cats) := by
  have hdb : checkDealbreakers s.questionsConfig ux uy = [] :=
    checkDealbreakers_eq_nil_of_answers_eq _ _ _ hans
  rw [calculateCompatibility_ok s x y ux uy hx hy, pairScore_matched _ _ _ hdb hpref]
  have hsim : calcSimilarity s.questionsConfig ux uy = 1 := by
    rw [hcfg]
    apply calcSimilarity_self _ _ _ hans _ hnzsim
    have hwAll : ∀ e ∈ defaultQuestionConfig, (0:ℚ) < e.2.weight := by
      simp only [defaultQuestionConfig, List.forall_mem_append, List.forall_mem_map]
      norm_num
    intro e he
    exact hwAll e (List.mem_of_mem_filter he)
  have hcomp : calcComplementarity s.questionsConfig ux uy = 0 := by
    rw [hcfg]
    apply calcComplementarity_self _ _ _ hans
    decide
  rw [hsim, hcomp]
  rw [show (1:ℝ) * 100 = 100 by norm_num, pyRound_hundred,
    show (0:ℝ) * 100 = 0 by norm_num, pyRound_zero]
  exact ⟨_, _, rfl⟩

theorem spec_C8_instance :
    ∃ p cats, calculateCompatibility (DM.mk defaultQuestionConfig
        [(1, ⟨List.replicate 100 (1/2), ⟨none, none⟩⟩),
         (2, ⟨List.replicate 100 (1/2), ⟨none, none⟩⟩)]) 1 2 = .ok
      (p, Breakdown.matched p 100 0 cats) := by
  apply spec_C8_amended_identical_answers
    (DM.mk defaultQuestionConfig
      [(1, ⟨List.replicate 100 (1/2), ⟨none, none⟩⟩),
       (2, ⟨List.replicate 100 (1/2), ⟨none, none⟩⟩)]) 1 2
    ⟨List.replicate 100 (1/2), ⟨none, none⟩⟩ ⟨List.replicate 100 (1/2), ⟨none, none⟩⟩
    rfl rfl rfl rfl
  · simp [checkPreferences, Prefs.isEmptyDict]
  · refine ⟨(0, ⟨5, MatchType.similarity⟩), by decide, ?_⟩
    rw [ansQ_replicate 100 0 (1/2) _ (by norm_num)]
    norm_num
  · intro c hc
    have hi : ∀ i : ℕ, i < 100 →
        ansQ ⟨List.replicate 100 ((1:ℚ)/2), ⟨none, none⟩⟩ i ≠ 0 := by
      intro i hilt
      rw [ansQ_replicate 100 i (1/2) _ hilt]
      norm_num
    rcases List.mem_cons.mp hc with rfl | hc'
    · exact ⟨0, by decide, hi 0 (by norm_num)⟩
    rcases List.mem_cons.mp hc' with rfl | hc''
    · exact ⟨20, by decide, hi 20 (by norm_num)⟩
    rcases List.mem_cons.mp hc'' with rfl | hc'''
    · exact ⟨40, by decide, hi 40 (by norm_num)⟩
    rcases List.mem_cons.mp hc''' with rfl | hc''''
    · exact ⟨70, by decide, hi 70 (by norm_num)⟩
    · simp at hc''''

/-! ### C10: range invariants -/

theorem csStep (c a b s p q : ℝ) (hc : 0 ≤ c) (hp : 0 ≤ p) (hq : 0 ≤ q)
    (hs : s ^ 2 ≤ p * q) :
    (c * (a * b) + s) ^ 2 ≤ (c * (a * a) + p) * (c * (b * b) + q) := by
  rcases eq_or_lt_of_le hq with hq0 | hqpos
  · have hq0' : q = 0 := hq0.symm
    subst hq0'
    have hs0 : s = 0 := by nlinarith [sq_nonneg s]
    subst hs0
    nlinarith [mul_nonneg hp (mul_nonneg hc (mul_self_nonneg b))]
  · nlinarith [mul_nonneg hc (sq_nonneg (a * q - b * s)),
      mul_nonneg (mul_nonneg hc (mul_self_nonneg b)) (sub_nonneg.mpr hs),
      mul_nonneg hq (sub_nonneg.mpr hs)]

theorem zipWith_sq_sum_nonneg (w u : List ℝ) (hw : ∀ x ∈ w, 0 ≤ x) :
    0 ≤ (List.zipWith (· * ·) w (List.zipWith (· * ·) u u)).sum := by
  induction w generalizing u with
  | nil => simp
  | cons c w' ih =>
    cases u with
    | nil => simp
    | cons a u' =>
      simp only [List.zipWith_cons_cons, List.sum_cons]
      have h1 : 0 ≤ c * (a * a) :=
        mul_nonneg (hw c (List.mem_cons_self c w')) (mul_self_nonneg a)
      have h2 : 0 ≤ (List.zipWith (· * ·) w' (List.zipWith (· * ·) u' u')).sum :=
        ih u' (fun x hx => hw x (List.mem_cons_of_mem _ hx))
      linarith

theorem listCS (w u v : List ℝ) (hw : ∀ x ∈ w, 0 ≤ x) :
    ((List.zipWith (· * ·) w (List.zipWith (· * ·) u v)).sum) ^ 2 ≤
      (List.zipWith (· * ·) w (List.zipWith (· * ·) u u)).sum *
      (List.zipWith (· * ·) w (List.zipWith (· * ·) v v)).sum := by
  induction w generalizing u v with
  | nil => simp
  | cons c w' ih =>
    cases u with
    | nil => simp
    | cons a u' =>
      cases v with
      | nil => simp
      | cons b v' =>
        simp only [List.zipWith_cons_cons, List.sum_cons]
        exact csStep c a b _ _ _ (hw c (List.mem_cons_self c w'))
          (zipWith_sq_sum_nonneg w' u' (fun x hx => hw x (List.mem_cons_of_mem _ hx)))
          (zipWith_sq_sum_nonneg w' v' (fun x hx => hw x (List.mem_cons_of_mem _ hx)))
          (ih u' v' (fun x hx => hw x (List.mem_cons_of_mem _ hx)))

theorem zipWith_mul_nonneg (w u : List ℝ) (hw : ∀ x ∈ w, 0 ≤ x) (hu : ∀ x ∈ u, 0 ≤ x) :
    ∀ z ∈ List.zipWith (· * ·) w u, 0 ≤ z := by
  induction w generalizing u with
  | nil => simp
  | cons c w' ih =>
    cases u with
    | nil => simp
    | cons a u' =>
      intro z hz
      rcases List.mem_cons.mp hz with rfl | hz'
      · exact mul_nonneg (hw c (List.mem_cons_self c w')) (hu a (List.mem_cons_self a u'))
      · exact ih u' (fun x hx => hw x (List.mem_cons_of_mem _ hx))
          (fun x hx => hu x (List.mem_cons_of_mem _ hx)) z hz'

theorem map_sq_nonneg (u : List ℝ) : ∀ x ∈ u.map (· ^ 2), 0 ≤ x := by
  intro x hx
  rcases List.mem_map.mp hx with ⟨a, _ha, rfl⟩
  exact sq_nonneg a

theorem cosineSimBounds (u v w : List ℝ) (hw : ∀ x ∈ w, 0 ≤ x)
    (hu : ∀ x ∈ u, 0 ≤ x) (hv : ∀ x ∈ v, 0 ≤ x) :
    0 ≤ 1 - cosineDist u v w ∧ 1 - cosineDist u v w ≤ 1 := by
  have hval : 1 - cosineDist u v w =
      npAverage (List.zipWith (· * ·) u v) w /
        Real.sqrt (npAverage (u.map (· ^ 2)) w * npAverage (v.map (· ^ 2)) w) := by
    unfold cosineDist
    ring
  rw [hval]
  have hWs : 0 ≤ w.sum := List.sum_nonneg hw
  have huv0 : 0 ≤ npAverage (List.zipWith (· * ·) u v) w := by
    unfold npAverage
    apply div_nonneg _ hWs
    apply List.sum_nonneg
    apply zipWith_mul_nonneg w _ hw
    exact zipWith_mul_nonneg u v hu hv
  have huu0 : 0 ≤ npAverage (u.map (· ^ 2)) w := by
    unfold npAverage
    exact div_nonneg (List.sum_nonneg (zipWith_mul_nonneg _ _ hw (map_sq_nonneg u))) hWs
  have hvv0 : 0 ≤ npAverage (v.map (· ^ 2)) w := by
    unfold npAverage
    exact div_nonneg (List.sum_nonneg (zipWith_mul_nonneg _ _ hw (map_sq_nonneg v))) hWs
  refine ⟨div_nonneg huv0 (Real.sqrt_nonneg _), ?_⟩
  have hsqle : npAverage (List.zipWith (· * ·) u v) w ≤
      Real.sqrt (npAverage (u.map (· ^ 2)) w * npAverage (v.map (· ^ 2)) w) := by
    rw [Real.le_sqrt huv0 (mul_nonneg huu0 hvv0)]
    rcases eq_or_lt_of_le hWs with hW0 | hWpos
    · unfold npAverage
      rw [← hW0]
      simp
    · unfold npAverage
      rw [div_pow, div_mul_div_comm, ← pow_two]
      rw [div_le_div_iff_of_pos_right (by positivity)]
      have huusq : (List.zipWith (· * ·) w (u.map (· ^ 2))).sum =
          (List.zipWith (· * ·) w (List.zipWith (· * ·) u u)).sum := by
        congr 1
        congr 1
        have : u.map (· ^ 2) = List.zipWith (· * ·) u u := by
          rw [List.zipWith_same]
          apply List.map_congr_left
          intro a _ha
          rw [pow_two]
        rw [this]
      have hvvsq : (List.zipWith (· * ·) w (v.map (· ^ 2))).sum =
          (List.zipWith (· * ·) w (List.zipWith (· * ·) v v)).sum := by
        congr 1
        congr 1
        have : v.map (· ^ 2) = List.zipWith (· * ·) v v := by
          rw [List.zipWith_same]
          apply List.map_congr_left
          intro a _ha
          rw [pow_two]
        rw [this]
      rw [huusq, hvvsq]
      exact listCS w u v hw
  rcases eq_or_lt_of_le (Real.sqrt_nonneg (npAverage (u.map (· ^ 2)) w *
      npAverage (v.map (· ^ 2)) w)) with hD0 | hDpos
  · rw [← hD0, div_zero]
    norm_num
  · exact (div_le_one hDpos).mpr hsqle

theorem zipWith_mul_sum_le (w x : List ℝ) (hw : ∀ a ∈ w, 0 ≤ a) (hx1 : ∀ a ∈ x, a ≤ 1) :
    (List.zipWith (· * ·) w x).sum ≤ w.sum := by
  induction w generalizing x with
  | nil => simp
  | cons c w' ih =>
    cases x with
    | nil =>
      simp only [List.zipWith_nil_right, List.sum_nil, List.sum_cons]
      have : 0 ≤ w'.sum := List.sum_nonneg (fun a ha => hw a (List.mem_cons_of_mem _ ha))
      have : 0 ≤ c := hw c (List.mem_cons_self c w')
      linarith
    | cons s x' =>
      simp only [List.zipWith_cons_cons, List.sum_cons]
      have h1 : c * s ≤ c := mul_le_of_le_one_right (hw c (List.mem_cons_self c w'))
        (hx1 s (List.mem_cons_self s x'))
      have h2 : (List.zipWith (· * ·) w' x').sum ≤ w'.sum :=
        ih x' (fun a ha => hw a (List.mem_cons_of_mem _ ha))
          (fun a ha => hx1 a (List.mem_cons_of_mem _ ha))
      linarith

theorem npAverage_bounds (x w : List ℝ) (hw : ∀ a ∈ w, 0 ≤ a)
    (hx0 : ∀ a ∈ x, 0 ≤ a) (hx1 : ∀ a ∈ x, a ≤ 1) :
    0 ≤ npAverage x w ∧ npAverage x w ≤ 1 := by
  unfold npAverage
  have hWs : 0 ≤ w.sum := List.sum_nonneg hw
  constructor
  · exact div_nonneg (List.sum_nonneg (zipWith_mul_nonneg w x hw hx0)) hWs
  · rcases eq_or_lt_of_le hWs with hW0 | hWpos
    · rw [← hW0, div_zero]
      norm_num
    · rw [div_le_one hWpos]
      exact zipWith_mul_sum_le w x hw hx1

theorem ansQ_mem_unit (u : UserRecord) (h : ∀ q ∈ u.answers, 0 ≤ q ∧ q ≤ 1) (i : ℕ) :
    0 ≤ ansQ u i ∧ ansQ u i ≤ 1 := by
  unfold ansQ
  rw [List.getD_eq_getElem?_getD]
  cases hq : u.answers[i]? with
  | none => norm_num
  | some q =>
    have hmem : q ∈ u.answers := by
      rcases List.getElem?_eq_some.mp hq with ⟨hlt, rfl⟩
      exact List.getElem_mem hlt
    simpa using h q hmem

theorem normWeights_nonneg (ws : List ℝ) (h : ∀ a ∈ ws, 0 ≤ a) :
    ∀ a ∈ normWeights ws, 0 ≤ a := by
  intro a ha
  rcases List.mem_map.mp ha with ⟨b, hb, rfl⟩
  exact div_nonneg (h b hb) (List.sum_nonneg h)

theorem calcSimilarity_bounds (cfg : Config) (u1 u2 : UserRecord)
    (hw : ∀ e ∈ cfg, (0:ℚ) ≤ e.2.weight)
    (ha1 : ∀ q ∈ u1.answers, 0 ≤ q ∧ q ≤ 1) (ha2 : ∀ q ∈ u2.answers, 0 ≤ q ∧ q ≤ 1) :
    0 ≤ calcSimilarity cfg u1 u2 ∧ calcSimilarity cfg u1 u2 ≤ 1 := by
  by_cases hE : simEntries cfg = []
  · simp [calcSimilarity, hE]
  · simp only [calcSimilarity, hE, if_false]
    apply cosineSimBounds
    · apply normWeights_nonneg
      intro a ha
      rcases List.mem_map.mp ha with ⟨e, he, rfl⟩
      have : (0:ℚ) ≤ e.2.weight := hw e (List.mem_of_mem_filter he)
      exact_mod_cast this
    · intro a ha
      rcases List.mem_map.mp ha with ⟨e, _he, rfl⟩
      have := (ansQ_mem_unit u1 ha1 e.1).1
      exact_mod_cast this
    · intro a ha
      rcases List.mem_map.mp ha with ⟨e, _he, rfl⟩
      have := (ansQ_mem_unit u2 ha2 e.1).1
      exact_mod_cast this

theorem calcComplementarity_bounds (cfg : Config) (u1 u2 : UserRecord)
    (hw : ∀ e ∈ cfg, (0:ℚ) ≤ e.2.weight)
    (ha1 : ∀ q ∈ u1.answers, 0 ≤ q ∧ q ≤ 1) (ha2 : ∀ q ∈ u2.answers, 0 ≤ q ∧ q ≤ 1) :
    0 ≤ calcComplementarity cfg u1 u2 ∧ calcComplementarity cfg u1 u2 ≤ 1 := by
  by_cases hE : compEntries cfg = []
  · simp [calcComplementarity, hE]
  · simp only [calcComplementarity, hE, if_false, subAnswers]
    rw [zipWith_map_same, List.map_map]
    apply npAverage_bounds
    · apply normWeights_nonneg
      intro a ha
      rcases List.mem_map.mp ha with ⟨e, he, rfl⟩
      have : (0:ℚ) ≤ e.2.weight := hw e (List.mem_of_mem_filter he)
      exact_mod_cast this
    · intro a ha
      rcases List.mem_map.mp ha with ⟨e, _he, rfl⟩
      simp only [Function.comp_apply]
      have hd0 : (0:ℝ) ≤ |((ansQ u1 e.1 : ℚ) : ℝ) - ((ansQ u2 e.1 : ℚ) : ℝ)| := abs_nonneg _
      have hd1 : |((ansQ u1 e.1 : ℚ) : ℝ) - ((ansQ u2 e.1 : ℚ) : ℝ)| ≤ 1 := by
        have h1 := ansQ_mem_unit u1 ha1 e.1
        have h2 := ansQ_mem_unit u2 ha2 e.1
        rw [abs_sub_le_iff]
        constructor
        · have ha : ((ansQ u1 e.1 : ℚ) : ℝ) ≤ 1 := by exact_mod_cast h1.2
          have hb : (0:ℝ) ≤ ((ansQ u2 e.1 : ℚ) : ℝ) := by exact_mod_cast h2.1
          linarith
        · have ha : ((ansQ u2 e.1 : ℚ) : ℝ) ≤ 1 := by exact_mod_cast h2.2
          have hb : (0:ℝ) ≤ ((ansQ u1 e.1 : ℚ) : ℝ) := by exact_mod_cast h1.1
          linarith
      have habs : |(|((ansQ u1 e.1 : ℚ) : ℝ) - ((ansQ u2 e.1 : ℚ) : ℝ)|) - 1/2| ≤ 1/2 := by
        rw [abs_le]
        constructor <;> [linarith; linarith]
      linarith [abs_nonneg ((|((ansQ u1 e.1 : ℚ) : ℝ) - ((ansQ u2 e.1 : ℚ) : ℝ)|) - 1/2)]
    · intro a ha
      rcases List.mem_map.mp ha with ⟨e, _he, rfl⟩
      simp only [Function.comp_apply]
      linarith [abs_nonneg ((|((ansQ u1 e.1 : ℚ) : ℝ) - ((ansQ u2 e.1 : ℚ) : ℝ)|) - 1/2)]

theorem pyRound_bounds (x : ℝ) (h0 : 0 ≤ x) (h100 : x ≤ 100) :
    0 ≤ pyRound x ∧ pyRound x ≤ 100 := by
  unfold pyRound
  split
  · rename_i hfr
    have hfloor0 : (0:ℤ) ≤ ⌊x⌋ := Int.floor_nonneg.mpr h0
    have hxeq : x = (⌊x⌋ : ℝ) + 1/2 := by
      have := Int.fract_add_floor x
      rw [hfr] at this
      linarith
    have hfloorlt : ⌊x⌋ < 100 := by
      have : ((⌊x⌋ : ℤ) : ℝ) < 100 := by linarith
      exact_mod_cast this
    split
    · exact ⟨hfloor0, le_of_lt hfloorlt⟩
    · exact ⟨by linarith, by omega⟩
  · rw [round_eq]
    constructor
    · have : (0:ℤ) = ⌊(0:ℝ) + 1/2⌋ := by norm_num
      rw [this]
      exact Int.floor_le_floor (by linarith)
    · have : (100:ℤ) = ⌊(100:ℝ) + 1/2⌋ := by norm_num
      rw [this]
      exact Int.floor_le_floor (by linarith)

theorem weightSum_nonneg (l : Config) (hw : ∀ e ∈ l, (0:ℚ) ≤ e.2.weight) :
    (0:ℚ) ≤ (l.map (fun e => e.2.weight)).sum := by
  apply List.sum_nonneg
  intro a ha
  rcases List.mem_map.mp ha with ⟨e, he, rfl⟩
  exact hw e he

/-- C10: for a registered pair with positive configured weights, all answers
in `[0,1]`, and nonzero similarity sub-vectors (the sub-vectors the
percentage formula divides through; category sub-vectors likewise nonzero so
the Python pipeline is `NaN`-free), `calculate_compatibility` returns a
percentage in `[0,100]`, and when the pair matches, the similarity,
complementary and every per-category score also lie in `[0,100]`.  The three
query operations are pure: the registry and configuration are inputs only
and no operation of the embedding produces a modified `DM`. -/
theorem spec_C10_bounds (s : DM) (x y : ℕ) (ux uy : UserRecord)
    (hx : assocLookup x s.users = some ux) (hy : assocLookup y s.users = some uy)
    (hw : ∀ e ∈ s.questionsConfig, 0 < e.2.weight)
    (hax : ∀ q ∈ ux.answers, 0 ≤ q ∧ q ≤ 1) (hay : ∀ q ∈ uy.answers, 0 ≤ q ∧ q ≤ 1)
    (hnzx : ∃ e ∈ simEntries s.questionsConfig, ansQ ux e.1 ≠ 0)
    (hnzy : ∃ e ∈ simEntries s.questionsConfig, ansQ uy e.1 ≠ 0)
    (hnzcx : ∀ c ∈ categories, ∃ i ∈ c.2, ansQ ux i ≠ 0)
    (hnzcy : ∀ c ∈ categories, ∃ i ∈ c.2, ansQ uy i ≠ 0) :
    ∃ p bd, calculateCompatibility s x y = .ok (p, bd) ∧ 0 ≤ p ∧ p ≤ 100 ∧
      ∀ o sv cv cats, bd = Breakdown.matched o sv cv cats →
        (0 ≤ sv ∧ sv ≤ 100) ∧ (0 ≤ cv ∧ cv ≤ 100) ∧
        ∀ nm c, (nm, c) ∈ cats → 0 ≤ c ∧ c ≤ 100 := by
  rw [calculateCompatibility_ok s x y ux uy hx hy]
  have hwle : ∀ e ∈ s.questionsConfig, (0:ℚ) ≤ e.2.weight := fun e he => (hw e he).le
  by_cases hdb : checkDealbreakers s.questionsConfig ux uy = []
  · by_cases hpref : checkPreferences ux uy
    · rw [pairScore_matched _ _ _ hdb hpref]
      have hsim := calcSimilarity_bounds s.questionsConfig ux uy hwle hax hay
      have hcomp := calcComplementarity_bounds s.questionsConfig ux uy hwle hax hay
      have hsw : (0:ℚ) ≤ simWeight s.questionsConfig := by
        apply weightSum_nonneg
        intro e he
        exact hwle e (List.mem_of_mem_filter he)
      have hcw : (0:ℚ) ≤ compWeight s.questionsConfig := by
        apply weightSum_nonneg
        intro e he
        exact hwle e (List.mem_of_mem_filter he)
      have hdw : (0:ℚ) ≤ dealWeight s.questionsConfig := by
        apply weightSum_nonneg
        intro e he
        exact hwle e (List.mem_of_mem_filter he)
      have htwpos : (0:ℚ) < totalWeight s.questionsConfig := by
        obtain ⟨e0, he0, _⟩ := hnzx
        have hne : s.questionsConfig ≠ [] := by
          intro hnil
          rw [simEntries, hnil] at he0
          simp at he0
        apply List.sum_pos
        · intro a ha
          rcases List.mem_map.mp ha with ⟨e, he, rfl⟩
          exact hw e he
        · simp [hne]
      have htotal : 0 ≤ (((simWeight s.questionsConfig : ℚ) : ℝ) *
            calcSimilarity s.questionsConfig ux uy +
            ((compWeight s.questionsConfig : ℚ) : ℝ) *
            calcComplementarity s.questionsConfig ux uy) /
            ((totalWeight s.questionsConfig : ℚ) : ℝ) ∧
          (((simWeight s.questionsConfig : ℚ) : ℝ) *
            calcSimilarity s.questionsConfig ux uy +
            ((compWeight s.questionsConfig : ℚ) : ℝ) *
            calcComplementarity s.questionsConfig ux uy) /
            ((totalWeight s.questionsConfig : ℚ) : ℝ) ≤ 1 := by
        have hswR : (0:ℝ) ≤ ((simWeight s.questionsConfig : ℚ) : ℝ) := by exact_mod_cast hsw
        have hcwR : (0:ℝ) ≤ ((compWeight s.questionsConfig : ℚ) : ℝ) := by exact_mod_cast hcw
        have hdwR : (0:ℝ) ≤ ((dealWeight s.questionsConfig : ℚ) : ℝ) := by exact_mod_cast hdw
        have htwR : (0:ℝ) < ((totalWeight s.questionsConfig : ℚ) : ℝ) := by exact_mod_cast htwpos
        have hpart : ((totalWeight s.questionsConfig : ℚ) : ℝ) =
            ((simWeight s.questionsConfig : ℚ) : ℝ) +
            ((compWeight s.questionsConfig : ℚ) : ℝ) +
            ((dealWeight s.questionsConfig : ℚ) : ℝ) := by
          rw [totalWeight_partition]
          push_cast
          ring
        constructor
        · apply div_nonneg _ htwR.le
          have h1 : 0 ≤ ((simWeight s.questionsConfig : ℚ) : ℝ) *
              calcSimilarity s.questionsConfig ux uy := mul_nonneg hswR hsim.1
          have h2 : 0 ≤ ((compWeight s.questionsConfig : ℚ) : ℝ) *
              calcComplementarity s.questionsConfig ux uy := mul_nonneg hcwR hcomp.1
          linarith
        · rw [div_le_one htwR]
          have h1 : ((simWeight s.questionsConfig : ℚ) : ℝ) *
              calcSimilarity s.questionsConfig ux uy ≤
              ((simWeight s.questionsConfig : ℚ) : ℝ) :=
            mul_le_of_le_one_right hswR hsim.2
          have h2 : ((compWeight s.questionsConfig : ℚ) : ℝ) *
              calcComplementarity s.questionsConfig ux uy ≤
              ((compWeight s.questionsConfig : ℚ) : ℝ) :=
            mul_le_of_le_one_right hcwR hcomp.2
          rw [hpart]
          linarith
      refine ⟨_, _, rfl, ?_, ?_, ?_⟩
      · exact (pyRound_bounds _ (by nlinarith [htotal.1]) (by nlinarith [htotal.2])).1
      · exact (pyRound_bounds _ (by nlinarith [htotal.1]) (by nlinarith [htotal.2])).2
      · intro o sv cv cats heq
        injection heq with h1 h2 h3 h4
        subst h2
        subst h3
        subst h4
        refine ⟨?_, ?_, ?_⟩
        · exact pyRound_bounds _ (by nlinarith [hsim.1]) (by nlinarith [hsim.2])
        · exact pyRound_bounds _ (by nlinarith [hcomp.1]) (by nlinarith [hcomp.2])
        · intro nm c hc
          rcases List.mem_map.mp hc with ⟨cat, _hcat, heq2⟩
          have hcval : c = pyRound ((1 - cosineDist (idxAnswers ux cat.2)
              (idxAnswers uy cat.2) (List.replicate cat.2.length 1)) * 100) := by
            have := congrArg Prod.snd heq2
            simpa using this.symm
          have hcs := cosineSimBounds (idxAnswers ux cat.2) (idxAnswers uy cat.2)
            (List.replicate cat.2.length 1)
            (by
              intro a ha
              rw [List.eq_of_mem_replicate ha]
              norm_num)
            (by
              intro a ha
              rcases List.mem_map.mp ha with ⟨i, _hi, rfl⟩
              have := (ansQ_mem_unit ux hax i).1
              exact_mod_cast this)
            (by
              intro a ha
              rcases List.mem_map.mp ha with ⟨i, _hi, rfl⟩
              have := (ansQ_mem_unit uy hay i).1
              exact_mod_cast this)
          rw [hcval]
          exact pyRound_bounds _ (by nlinarith [hcs.1]) (by nlinarith [hcs.2])
    · rw [pairScore_prefMismatch _ _ _ hdb hpref]
      refine ⟨0, _, rfl, le_refl 0, by norm_num, ?_⟩
      intro o sv cv cats heq
      exact absurd heq (by simp)
  · rw [pairScore_dealbreak _ _ _ hdb]
    refine ⟨0, _, rfl, le_refl 0, by norm_num, ?_⟩
    intro o sv cv cats heq
    exact absurd heq (by simp)

theorem spec_C10_instance :
    ∃ p bd, calculateCompatibility (DM.mk defaultQuestionConfig
        [(1, ⟨List.replicate 100 (1/2), ⟨none, none⟩⟩),
         (2, ⟨List.replicate 100 (1/2), ⟨none, none⟩⟩)]) 1 2 = .ok (p, bd) ∧
      0 ≤ p ∧ p ≤ 100 ∧
      ∀ o sv cv cats, bd = Breakdown.matched o sv cv cats →
        (0 ≤ sv ∧ sv ≤ 100) ∧ (0 ≤ cv ∧ cv ≤ 100) ∧
        ∀ nm c, (nm, c) ∈ cats → 0 ≤ c ∧ c ≤ 100 := by
  have hunit : ∀ q ∈ List.replicate 100 ((1:ℚ)/2), 0 ≤ q ∧ q ≤ 1 := by
    intro q hq
    rw [List.eq_of_mem_replicate hq]
    norm_num
  have hnz : ∃ e ∈ simEntries defaultQuestionConfig,
      ansQ ⟨List.replicate 100 ((1:ℚ)/2), ⟨none, none⟩⟩ e.1 ≠ 0 := by
    refine ⟨(0, ⟨5, MatchType.similarity⟩), by decide, ?_⟩
    rw [ansQ_replicate 100 0 (1/2) _ (by norm_num)]
    norm_num
  have hnzc : ∀ c ∈ categories, ∃ i ∈ c.2,
      ansQ ⟨List.replicate 100 ((1:ℚ)/2), ⟨none, none⟩⟩ i ≠ 0 := by
    intro c hc
    have hi : ∀ i : ℕ, i < 100 →
        ansQ ⟨List.replicate 100 ((1:ℚ)/2), ⟨none, none⟩⟩ i ≠ 0 := by
      intro i hilt
      rw [ansQ_replicate 100 i (1/2) _ hilt]
      norm_num
    rcases List.mem_cons.mp hc with rfl | hc'
    · exact ⟨0, by decide, hi 0 (by norm_num)⟩
    rcases List.mem_cons.mp hc' with rfl | hc''
    · exact ⟨20, by decide, hi 20 (by norm_num)⟩
    rcases List.mem_cons.mp hc'' with rfl | hc'''
    · exact ⟨40, by decide, hi 40 (by norm_num)⟩
    rcases List.mem_cons.mp hc''' with rfl | hc''''
    · exact ⟨70, by decide, hi 70 (by norm_num)⟩
    · simp at hc''''
  exact spec_C10_bounds (DM.mk defaultQuestionConfig
      [(1, ⟨List.replicate 100 (1/2), ⟨none, none⟩⟩),
       (2, ⟨List.replicate 100 (1/2), ⟨none, none⟩⟩)]) 1 2
    ⟨List.replicate 100 (1/2), ⟨none, none⟩⟩ ⟨List.replicate 100 (1/2), ⟨none, none⟩⟩
    rfl rfl
    (by
      simp only [defaultQuestionConfig, List.forall_mem_append, List.forall_mem_map]
      norm_num)
    hunit hunit hnz hnz hnzc hnzc

/-! ### C6: `find_matches` -/

theorem mem_insortDesc (x z : MatchEntry) (l : List MatchEntry) :
    z ∈ insortDesc x l ↔ z = x ∨ z ∈ l := by
  induction l with
  | nil => simp [insortDesc]
  | cons y ys ih =>
    unfold insortDesc
    split
    · simp only [List.mem_cons, ih] <;> tauto
    · simp only [List.mem_cons] <;> tauto

theorem mem_sortDesc (z : MatchEntry) (l : List MatchEntry) :
    z ∈ sortDesc l ↔ z ∈ l := by
  induction l with
  | nil => simp [sortDesc]
  | cons x xs ih =>
    unfold sortDesc
    rw [mem_insortDesc, ih, List.mem_cons]

theorem length_insortDesc (x : MatchEntry) (l : List MatchEntry) :
    (insortDesc x l).length = l.length + 1 := by
  induction l with
  | nil => simp [insortDesc]
  | cons y ys ih =>
    unfold insortDesc
    split
    · simp [ih]
    · simp

theorem length_sortDesc (l : List MatchEntry) : (sortDesc l).length = l.length := by
  induction l with
  | nil => simp [sortDesc]
  | cons x xs ih =>
    unfold sortDesc
    rw [length_insortDesc, ih, List.length_cons]

theorem insortDesc_pairwise (g : MatchEntry → ℕ) (x : MatchEntry) (l : List MatchEntry)
    (hl : l.Pairwise (fun a b => b.2.1 < a.2.1 ∨ (a.2.1 = b.2.1 ∧ g a < g b)))
    (hx : ∀ y ∈ l, g x < g y) :
    (insortDesc x l).Pairwise (fun a b => b.2.1 < a.2.1 ∨ (a.2.1 = b.2.1 ∧ g a < g b)) := by
  induction l with
  | nil => simp [insortDesc]
  | cons y ys ih =>
    rw [List.pairwise_cons] at hl
    unfold insortDesc
    split
    · rename_i hxy
      rw [List.pairwise_cons]
      constructor
      · intro z hz
        rcases (mem_insortDesc x z ys).mp hz with rfl | hz'
        · exact Or.inl hxy
        · exact hl.1 z hz'
      · exact ih hl.2 (fun y' hy' => hx y' (List.mem_cons_of_mem _ hy'))
    · rename_i hxy
      push_neg at hxy
      rw [List.pairwise_cons]
      constructor
      · intro z hz
        rcases List.mem_cons.mp hz with rfl | hz'
        · rcases eq_or_lt_of_le hxy with heq | hlt
          · exact Or.inr ⟨heq.symm, hx z (List.mem_cons_self z ys)⟩
          · exact Or.inl hlt
        · rcases hl.1 z hz' with hzy | ⟨hye, hgyz⟩
          · exact Or.inl (lt_of_lt_of_le hzy hxy)
          · rcases eq_or_lt_of_le hxy with heq | hlt
            · exact Or.inr ⟨heq.symm.trans hye, hx z (List.mem_cons_of_mem _ hz')⟩
            · exact Or.inl (hye ▸ hlt)
      · exact List.pairwise_cons.mpr hl

theorem sortDesc_pairwise (g : MatchEntry → ℕ) (l : List MatchEntry)
    (h : l.Pairwise (fun a b => g a < g b)) :
    (sortDesc l).Pairwise (fun a b => b.2.1 < a.2.1 ∨ (a.2.1 = b.2.1 ∧ g a < g b)) := by
  induction l with
  | nil => simp [sortDesc]
  | cons x xs ih =>
    rw [List.pairwise_cons] at h
    unfold sortDesc
    apply insortDesc_pairwise g x _ (ih h.2)
    intro y hy
    exact h.1 y ((mem_sortDesc y xs).mp hy)

theorem nodup_pairwise_indexOf (L : List ℕ) (h : L.Nodup) :
    L.Pairwise (fun a b => L.indexOf a < L.indexOf b) := by
  induction L with
  | nil => simp
  | cons a t ih =>
    rw [List.nodup_cons] at h
    rw [List.pairwise_cons]
    constructor
    · intro b hb
      have hba : b ≠ a := fun hba => h.1 (hba ▸ hb)
      rw [List.indexOf_cons_self, List.indexOf_cons_ne t hba.symm]
      exact Nat.succ_pos _
    · apply List.Pairwise.imp_of_mem _ (ih h.2)
      intro x y hx hy hxy
      have hxa : x ≠ a := fun hxa => h.1 (hxa ▸ hx)
      have hya : y ≠ a := fun hya => h.1 (hya ▸ hy)
      rw [List.indexOf_cons_ne t hxa.symm, List.indexOf_cons_ne t hya.symm]
      exact Nat.succ_lt_succ hxy

theorem lookup_isSome_of_mem (s : DM) (pid : ℕ) (r : UserRecord)
    (h : (pid, r) ∈ s.users) : (assocLookup pid s.users).isSome := by
  have : ∀ (l : List (ℕ × UserRecord)), (pid, r) ∈ l → (assocLookup pid l).isSome := by
    intro l
    induction l with
    | nil => simp
    | cons e rest ih =>
      intro hmem
      rcases List.mem_cons.mp hmem with heq | hmem'
      · rw [← heq]
        simp [assocLookup]
      · unfold assocLookup
        split
        · simp
        · exact ih hmem'
  exact this s.users h

theorem collectMatches_ok (s : DM) (userId : ℕ) (u : UserRecord)
    (hu : assocLookup userId s.users = some u) :
    ∀ us : List (ℕ × UserRecord), (∀ pr ∈ us, (assocLookup pr.1 s.users).isSome) →
      ∃ full, collectMatches s userId us = .ok full := by
  intro us
  induction us with
  | nil => exact fun _ => ⟨[], rfl⟩
  | cons pr rest ih =>
    intro hreg
    obtain ⟨full', hfull'⟩ := ih (fun q hq => hreg q (List.mem_cons_of_mem _ hq))
    obtain ⟨pid, r⟩ := pr
    by_cases hself : pid = userId
    · exact ⟨full', by simp [collectMatches, hself, hfull']⟩
    · have hsome := hreg (pid, r) (List.mem_cons_self _ _)
      rw [Option.isSome_iff_exists] at hsome
      obtain ⟨upid, hupid⟩ := hsome
      have hcalc : calculateCompatibility s userId pid =
          .ok (pairScore s.questionsConfig u upid) :=
        calculateCompatibility_ok s userId pid u upid hu hupid
      refine ⟨if 0 < (pairScore s.questionsConfig u upid).1 then
          (pid, pairScore s.questionsConfig u upid) :: full' else full', ?_⟩
      simp only [collectMatches, hself, if_false, hcalc, hfull']

theorem collectMatches_sound (s : DM) (userId : ℕ) :
    ∀ (us : List (ℕ × UserRecord)) (full : List MatchEntry),
      collectMatches s userId us = .ok full →
      ∀ e ∈ full, 0 < e.2.1 ∧ e.1 ≠ userId ∧
        calculateCompatibility s userId e.1 = .ok (e.2.1, e.2.2) := by
  intro us
  induction us with
  | nil =>
    intro full hfull
    simp only [collectMatches] at hfull
    obtain rfl : ([] : List MatchEntry) = full := by
      simpa using hfull
    simp
  | cons pr rest ih =>
    intro full hfull e he
    obtain ⟨pid, r⟩ := pr
    by_cases hself : pid = userId
    · rw [collectMatches, if_pos hself] at hfull
      exact ih full hfull e he
    · rw [collectMatches, if_neg hself] at hfull
      cases hcalc : calculateCompatibility s userId pid with
      | error err => rw [hcalc] at hfull; cases hfull
      | ok sb =>
        rw [hcalc] at hfull
        obtain ⟨score, bd⟩ := sb
        cases htail : collectMatches s userId rest with
        | error err => rw [htail] at hfull; cases hfull
        | ok tail =>
          rw [htail] at hfull
          simp only [Except.ok.injEq] at hfull
          subst hfull
          by_cases hpos : 0 < score
          · rw [if_pos hpos] at he
            rcases List.mem_cons.mp he with rfl | he'
            · exact ⟨hpos, hself, hcalc⟩
            · exact ih tail htail e he'
          · rw [if_neg hpos] at he
            exact ih tail htail e he

theorem collectMatches_complete (s : DM) (userId : ℕ) :
    ∀ (us : List (ℕ × UserRecord)) (full : List MatchEntry),
      collectMatches s userId us = .ok full →
      ∀ pid r, (pid, r) ∈ us → pid ≠ userId →
        ∀ p bd, calculateCompatibility s userId pid = .ok (p, bd) → 0 < p →
          (pid, p, bd) ∈ full := by
  intro us
  induction us with
  | nil => simp
  | cons pr rest ih =>
    intro full hfull pid r hmem hself p bd hcalc hpos
    obtain ⟨pid0, r0⟩ := pr
    by_cases hself0 : pid0 = userId
    · rw [collectMatches, if_pos hself0] at hfull
      rcases List.mem_cons.mp hmem with heq | hmem'
      · exfalso
        apply hself
        have : pid = pid0 := by
          injection heq
        rw [this, hself0]
      · exact ih full hfull pid r hmem' hself p bd hcalc hpos
    · rw [collectMatches, if_neg hself0] at hfull
      cases hcalc0 : calculateCompatibility s userId pid0 with
      | error err => rw [hcalc0] at hfull; cases hfull
      | ok sb =>
        rw [hcalc0] at hfull
        obtain ⟨score0, bd0⟩ := sb
        cases htail : collectMatches s userId rest with
        | error err => rw [htail] at hfull; cases hfull
        | ok tail =>
          rw [htail] at hfull
          simp only [Except.ok.injEq] at hfull
          subst hfull
          rcases List.mem_cons.mp hmem with heq | hmem'
          · have hpid : pid = pid0 := by injection heq
            subst hpid
            rw [hcalc] at hcalc0
            have hpb : (p, bd) = (score0, bd0) := by
              simpa using hcalc0
            injection hpb with h1 h2
            subst h1
            subst h2
            rw [if_pos hpos]
            exact List.mem_cons_self _ _
          · have h := ih tail htail pid r hmem' hself p bd hcalc hpos
            by_cases hpos0 : 0 < score0
            · rw [if_pos hpos0]
              exact List.mem_cons_of_mem _ h
            · rw [if_neg hpos0]
              exact h

theorem collectMatches_ids_sublist (s : DM) (userId : ℕ) :
    ∀ (us : List (ℕ × UserRecord)) (full : List MatchEntry),
      collectMatches s userId us = .ok full →
      List.Sublist (full.map Prod.fst) (us.map Prod.fst) := by
  intro us
  induction us with
  | nil =>
    intro full hfull
    obtain rfl : ([] : List MatchEntry) = full := by
      simpa [collectMatches] using hfull
    simp
  | cons pr rest ih =>
    intro full hfull
    obtain ⟨pid0, r0⟩ := pr
    by_cases hself0 : pid0 = userId
    · rw [collectMatches, if_pos hself0] at hfull
      exact (ih full hfull).trans (List.sublist_cons_self _ _)
    · rw [collectMatches, if_neg hself0] at hfull
      cases hcalc0 : calculateCompatibility s userId pid0 with
      | error err => rw [hcalc0] at hfull; cases hfull
      | ok sb =>
        rw [hcalc0] at hfull
        obtain ⟨score0, bd0⟩ := sb
        cases htail : collectMatches s userId rest with
        | error err => rw [htail] at hfull; cases hfull
        | ok tail =>
          rw [htail] at hfull
          simp only [Except.ok.injEq] at hfull
          subst hfull
          by_cases hpos0 : 0 < score0
          · rw [if_pos hpos0]
            simpa using List.Sublist.cons₂ pid0 (ih tail htail)
          · rw [if_neg hpos0]
            exact (ih tail htail).trans (List.sublist_cons_self _ _)

/-- C6: `find_matches` fails for an unregistered id; otherwise it returns at
most `top_n` entries, each a positive-score compatibility result against
another registered user, ordered by descending score with ties kept in
registration order, and the only positive-score candidates left out are
those cut by the `top_n` truncation (every kept entry then scores at least
as much). -/
theorem spec_C6_find_matches (s : DM) (userId topN : ℕ)
    (hwf : WF s) (hnd : (s.users.map Prod.fst).Nodup) :
    (assocLookup userId s.users = none → findMatches s userId topN = .error .userNotFound) ∧
    (∀ u, assocLookup userId s.users = some u →
      ∃ l, findMatches s userId topN = .ok l ∧
        l.length ≤ topN ∧
        (∀ e ∈ l, 0 < e.2.1 ∧ e.1 ≠ userId ∧
          calculateCompatibility s userId e.1 = .ok (e.2.1, e.2.2)) ∧
        l.Pairwise (fun a b => b.2.1 < a.2.1 ∨
          (a.2.1 = b.2.1 ∧ regIndex s a.1 < regIndex s b.1)) ∧
        (∀ pid r, (pid, r) ∈ s.users → pid ≠ userId →
          ∀ p bd, calculateCompatibility s userId pid = .ok (p, bd) → 0 < p →
            ((pid, p, bd) ∈ l ∨ (l.length = topN ∧ ∀ e ∈ l, p ≤ e.2.1)))) := by
  constructor
  · intro hnone
    simp [findMatches, hnone]
  · intro u hu
    obtain ⟨full, hfull⟩ := collectMatches_ok s userId u hu s.users
      (fun pr hpr => lookup_isSome_of_mem s pr.1 pr.2 hpr)
    refine ⟨(sortDesc full).take topN, by simp [findMatches, hu, hfull], ?_, ?_, ?_, ?_⟩
    · rw [List.length_take]
      exact min_le_left _ _
    · intro e he
      have he' : e ∈ full := (mem_sortDesc e full).mp (List.mem_of_mem_take he)
      exact collectMatches_sound s userId s.users full hfull e he'
    · have h1 := nodup_pairwise_indexOf (s.users.map Prod.fst) hnd
      have h2 := h1.sublist (collectMatches_ids_sublist s userId s.users full hfull)
      have h3 : full.Pairwise (fun a b : MatchEntry =>
          regIndex s a.1 < regIndex s b.1) := by
        have := List.pairwise_map.mp h2
        simpa [regIndex] using this
      have h4 := sortDesc_pairwise (fun e => regIndex s e.1) full h3
      exact h4.sublist (List.take_sublist _ _)
    · intro pid r hmem hself p bd hcalc hpos
      have hentry : (pid, p, bd) ∈ full :=
        collectMatches_complete s userId s.users full hfull pid r hmem hself p bd hcalc hpos
      have hentry' : (pid, p, bd) ∈ sortDesc full := (mem_sortDesc _ _).mpr hentry
      rcases List.mem_append.mp
          ((List.take_append_drop topN (sortDesc full)) ▸ hentry') with htk | hdr
      · exact Or.inl htk
      · right
        have hdrne : (sortDesc full).drop topN ≠ [] := List.ne_nil_of_mem hdr
        have hLgt : topN < (sortDesc full).length := by
          by_contra hle
          push_neg at hle
          exact hdrne (List.drop_eq_nil_of_le hle)
        constructor
        · rw [List.length_take]
          exact min_eq_left hLgt.le
        · intro e he
          have h1 := nodup_pairwise_indexOf (s.users.map Prod.fst) hnd
          have h2 := h1.sublist (collectMatches_ids_sublist s userId s.users full hfull)
          have h3 : full.Pairwise (fun a b : MatchEntry =>
              regIndex s a.1 < regIndex s b.1) := by
            have := List.pairwise_map.mp h2
            simpa [regIndex] using this
          have h4 := sortDesc_pairwise (fun e => regIndex s e.1) full h3
          have h5 : ((sortDesc full).take topN ++ (sortDesc full).drop topN).Pairwise
              (fun a b : MatchEntry => b.2.1 < a.2.1 ∨
                (a.2.1 = b.2.1 ∧ regIndex s a.1 < regIndex s b.1)) := by
            rw [List.take_append_drop]
            exact h4
          have h6 := (List.pairwise_append.mp h5).2.2 e he (pid, p, bd) hdr
          rcases h6 with hlt | ⟨heq, _⟩
          · exact le_of_lt hlt
          · exact le_of_eq heq.symm

theorem defaultConfig_weight_pos : ∀ e ∈ defaultQuestionConfig,
    (0:ℚ) < e.2.weight ∧ e.1 < 100 := by
  simp only [defaultQuestionConfig, List.forall_mem_append, List.forall_mem_map,
    List.mem_range'_1]
  refine ⟨⟨⟨⟨⟨?_, ?_⟩, ?_⟩, ?_⟩, ?_⟩, ?_⟩ <;>
    · intro i hi
      constructor
      · norm_num
      · omega

theorem defaultConfig_totalWeight_pos : (0:ℚ) < totalWeight defaultQuestionConfig := by
  apply List.sum_pos
  · intro a ha
    rcases List.mem_map.mp ha with ⟨e, he, rfl⟩
    exact (defaultConfig_weight_pos e he).1
  · simp [defaultQuestionConfig]

theorem halfUser_WF : WF (DM.mk defaultQuestionConfig
    [(1, ⟨List.replicate 100 (1/2), ⟨none, none⟩⟩),
     (2, ⟨List.replicate 100 (1/2), ⟨none, none⟩⟩)]) := by
  refine ⟨defaultConfig_weight_pos, ne_of_gt defaultConfig_totalWeight_pos, ?_⟩
  intro p hp
  have hrec : p.2 = (⟨List.replicate 100 ((1:ℚ)/2), ⟨none, none⟩⟩ : UserRecord) := by
    rcases List.mem_cons.mp hp with rfl | hp'
    · rfl
    rcases List.mem_cons.mp hp' with rfl | hp''
    · rfl
    · simp at hp''
  rw [hrec]
  refine ⟨by simp, ?_, ?_⟩
  · intro _hne
    refine ⟨(0, ⟨5, MatchType.similarity⟩), by decide, ?_⟩
    rw [ansQ_replicate 100 0 (1/2) _ (by norm_num)]
    norm_num
  · intro c hc
    have hi : ∀ i : ℕ, i < 100 →
        ansQ ⟨List.replicate 100 ((1:ℚ)/2), ⟨none, none⟩⟩ i ≠ 0 := by
      intro i hilt
      rw [ansQ_replicate 100 i (1/2) _ hilt]
      norm_num
    rcases List.mem_cons.mp hc with rfl | hc'
    · exact ⟨0, by decide, hi 0 (by norm_num)⟩
    rcases List.mem_cons.mp hc' with rfl | hc''
    · exact ⟨20, by decide, hi 20 (by norm_num)⟩
    rcases List.mem_cons.mp hc'' with rfl | hc'''
    · exact ⟨40, by decide, hi 40 (by norm_num)⟩
    rcases List.mem_cons.mp hc''' with rfl | hc''''
    · exact ⟨70, by decide, hi 70 (by norm_num)⟩
    · simp at hc''''

theorem spec_C6_instance :
    ∃ l, findMatches (DM.mk defaultQuestionConfig
        [(1, ⟨List.replicate 100 (1/2), ⟨none, none⟩⟩),
         (2, ⟨List.replicate 100 (1/2), ⟨none, none⟩⟩)]) 1 10 = .ok l ∧
      l.length ≤ 10 ∧
      ∀ e ∈ l, 0 < e.2.1 ∧ e.1 ≠ 1 := by
  obtain ⟨l, h1, h2, h3, _⟩ := (spec_C6_find_matches (DM.mk defaultQuestionConfig
      [(1, ⟨List.replicate 100 (1/2), ⟨none, none⟩⟩),
       (2, ⟨List.replicate 100 (1/2), ⟨none, none⟩⟩)]) 1 10
    halfUser_WF (by decide)).2 ⟨List.replicate 100 (1/2), ⟨none, none⟩⟩ rfl
  exact ⟨l, h1, h2, fun e he => ⟨(h3 e he).1, (h3 e he).2.1⟩⟩

/-! ### C7: `batch_processing` -/

theorem assocLookup_append_of_some (k : ℕ) (m1 m2 : List (ℕ × α)) (v : α)
    (h : assocLookup k m1 = some v) : assocLookup k (m1 ++ m2) = some v := by
  induction m1 with
  | nil => simp [assocLookup] at h
  | cons e rest ih =>
    rw [List.cons_append]
    unfold assocLookup at h ⊢
    split at h
    · rw [if_pos (by assumption)]
      exact h
    · rw [if_neg (by assumption)]
      exact ih h

theorem assocLookup_append_of_none (k : ℕ) (m1 m2 : List (ℕ × α))
    (h : assocLookup k m1 = none) : assocLookup k (m1 ++ m2) = assocLookup k m2 := by
  induction m1 with
  | nil => simp
  | cons e rest ih =>
    obtain ⟨k', v⟩ := e
    rw [List.cons_append]
    simp only [assocLookup] at h ⊢
    split at h
    · cases h
    · rename_i hne
      rw [if_neg hne]
      exact ih h

theorem keys_isSome (s : DM) : ∀ b ∈ s.users.map Prod.fst,
    (assocLookup b s.users).isSome := by
  intro b hb
  rcases List.mem_map.mp hb with ⟨pr, hpr, rfl⟩
  exact lookup_isSome_of_mem s pr.1 pr.2 hpr

theorem mem_keys_of_lookup_some (k : ℕ) (v : α) :
    ∀ l : List (ℕ × α), assocLookup k l = some v → k ∈ l.map Prod.fst := by
  intro l
  induction l with
  | nil => simp [assocLookup]
  | cons e rest ih =>
    intro h
    unfold assocLookup at h
    split at h
    · rename_i heq
      rw [List.map_cons, heq]
      exact List.mem_cons_self _ _
    · exact List.mem_cons_of_mem _ (ih h)

theorem lookup_recOf (s : DM) (a : ℕ) (h : (assocLookup a s.users).isSome) :
    assocLookup a s.users = some (recOf s a) := by
  unfold recOf
  cases hcase : assocLookup a s.users with
  | none => rw [hcase] at h; cases h
  | some v => rfl

theorem lookup_filterMap_keyed (a b : ℕ) (f : ℕ → ℤ × Breakdown) (ids : List ℕ) :
    assocLookup b (ids.filterMap (fun c => if c = a then none else some (c, f c))) =
      if b = a ∨ b ∉ ids then none else some (f b) := by
  induction ids with
  | nil => simp [assocLookup]
  | cons c rest ih =>
    rw [List.filterMap_cons]
    by_cases hca : c = a
    · rw [if_pos hca]
      rw [ih]
      subst hca
      by_cases hba : b = c
      · subst hba
        simp
      · simp only [List.mem_cons, hba, false_or]
    · rw [if_neg hca]
      unfold assocLookup
      by_cases hbc : b = c
      · subst hbc
        rw [if_pos rfl]
        simp [hca]
      · rw [if_neg hbc, ih]
        simp only [List.mem_cons, hbc, false_or]

theorem lookup_mapKeyed (a : ℕ) (F : ℕ → Row) (keys : List ℕ) :
    assocLookup a (keys.map (fun k => (k, F k))) =
      if a ∈ keys then some (F a) else none := by
  induction keys with
  | nil => simp [assocLookup]
  | cons c rest ih =>
    rw [List.map_cons]
    unfold assocLookup
    by_cases hac : a = c
    · subst hac
      simp
    · rw [if_neg hac, ih]
      simp only [List.mem_cons, hac, false_or]

theorem batchInner_eq (s : DM) (u1 : ℕ) (mat : CompatMatrix) (r1 : UserRecord)
    (hr1 : assocLookup u1 s.users = some r1)
    (hmat : ∀ a row, assocLookup a mat = some row → ∀ b v, assocLookup b row = some v →
      ∃ ra, assocLookup a s.users = some ra ∧ (assocLookup b s.users).isSome ∧
        v = pairScore s.questionsConfig ra (recOf s b)) :
    ∀ (ids : List ℕ) (row : Row), (∀ b ∈ ids, (assocLookup b s.users).isSome) →
      batchInner s u1 mat ids row = .ok (row ++ ids.filterMap (fun b =>
        if b = u1 then none else some (b, pairScore s.questionsConfig r1 (recOf s b)))) := by
  intro ids
  induction ids with
  | nil =>
    intro row _
    simp [batchInner]
  | cons b rest ih =>
    intro row hreg
    have hrest : ∀ c ∈ rest, (assocLookup c s.users).isSome :=
      fun c hc => hreg c (List.mem_cons_of_mem _ hc)
    by_cases hbu : b = u1
    · have hstep : batchInner s u1 mat (b :: rest) row = batchInner s u1 mat rest row := by
        simp [batchInner, hbu]
      rw [hstep, ih row hrest, List.filterMap_cons, if_pos hbu]
    · have hbsome := hreg b (List.mem_cons_self b rest)
      have hb : assocLookup b s.users = some (recOf s b) := lookup_recOf s b hbsome
      cases hmirror : (assocLookup b mat).bind (assocLookup u1) with
      | some v =>
        obtain ⟨rowb, hrowb, hvrow⟩ := Option.bind_eq_some.mp hmirror
        obtain ⟨ra, hra, _hb2, hveq⟩ := hmat b rowb hrowb u1 v hvrow
        have hrecu1 : recOf s u1 = r1 := by simp [recOf, hr1]
        have hrab : ra = recOf s b := by
          rw [hb] at hra
          exact (Option.some_injective _ hra).symm
        have hv2 : v = pairScore s.questionsConfig r1 (recOf s b) := by
          rw [hveq, hrecu1, hrab, pairScore_comm]
        have hstep : batchInner s u1 mat (b :: rest) row =
            batchInner s u1 mat rest (row ++ [(b, v)]) := by
          simp [batchInner, hbu, hmirror]
        rw [hstep, ih _ hrest, List.filterMap_cons, if_neg hbu, hv2]
        simp
      | none =>
        have hcalc : calculateCompatibility s u1 b =
            .ok (pairScore s.questionsConfig r1 (recOf s b)) :=
          calculateCompatibility_ok s u1 b r1 (recOf s b) hr1 hb
        have hstep : batchInner s u1 mat (b :: rest) row = batchInner s u1 mat rest
            (row ++ [(b, pairScore s.questionsConfig r1 (recOf s b))]) := by
          simp [batchInner, hbu, hmirror, hcalc]
        rw [hstep, ih _ hrest, List.filterMap_cons, if_neg hbu]
        simp

theorem batchOuter_eq (s : DM) :
    ∀ (todo : List ℕ) (mat : CompatMatrix),
      (∀ a ∈ todo, (assocLookup a s.users).isSome) →
      (∀ a row, assocLookup a mat = some row → ∀ b v, assocLookup b row = some v →
        ∃ ra, assocLookup a s.users = some ra ∧ (assocLookup b s.users).isSome ∧
          v = pairScore s.questionsConfig ra (recOf s b)) →
      batchOuter s todo mat = .ok (mat ++ todo.map (fun a =>
        (a, (s.users.map Prod.fst).filterMap (fun b =>
          if b = a then none
          else some (b, pairScore s.questionsConfig (recOf s a) (recOf s b)))))) := by
  intro todo
  induction todo with
  | nil =>
    intro mat _ _
    simp [batchOuter]
  | cons u1 rest ih =>
    intro mat htodo hmat
    have hu1 : assocLookup u1 s.users = some (recOf s u1) :=
      lookup_recOf s u1 (htodo u1 (List.mem_cons_self _ _))
    have hinner := batchInner_eq s u1 mat (recOf s u1) hu1 hmat
      (s.users.map Prod.fst) [] (keys_isSome s)
    have hstep : batchOuter s (u1 :: rest) mat = batchOuter s rest
        (mat ++ [(u1, (s.users.map Prod.fst).filterMap (fun b =>
          if b = u1 then none
          else some (b, pairScore s.questionsConfig (recOf s u1) (recOf s b))))]) := by
      simp only [batchOuter, hinner, List.nil_append]
    rw [hstep, ih _ (fun a ha => htodo a (List.mem_cons_of_mem _ ha)) ?hmat2]
    · simp
    case hmat2 =>
      intro a row' hlk b v hbv
      cases hmata : assocLookup a mat with
      | some rowa =>
        rw [assocLookup_append_of_some a mat _ rowa hmata] at hlk
        have hre : rowa = row' := Option.some_injective _ hlk
        subst hre
        exact hmat a rowa hmata b v hbv
      | none =>
        rw [assocLookup_append_of_none a mat _ hmata] at hlk
        simp only [assocLookup] at hlk
        split at hlk
        · rename_i hau
          have hre : (s.users.map Prod.fst).filterMap (fun b =>
              if b = u1 then none
              else some (b, pairScore s.questionsConfig (recOf s u1) (recOf s b))) = row' :=
            Option.some_injective _ hlk
          rw [← hre] at hbv
          rw [lookup_filterMap_keyed u1 b _ _] at hbv
          split at hbv
          · cases hbv
          · rename_i hbcond
            push_neg at hbcond
            have hv : v = pairScore s.questionsConfig (recOf s u1) (recOf s b) :=
              (Option.some_injective _ hbv).symm
            subst hau
            exact ⟨recOf s a, hu1, keys_isSome s b hbcond.2, hv⟩
        · cases hlk

theorem batchProcessing_eq_naive (s : DM) : batchProcessing s = .ok (naiveMatrix s) := by
  unfold batchProcessing naiveMatrix
  rw [batchOuter_eq s (s.users.map Prod.fst) [] (keys_isSome s)
    (by intro a row h; simp [assocLookup] at h)]
  simp

/-- C7: `batch_processing` produces a matrix with a row for every registered
user and an entry for every other registered user (no self entries), each
entry equal to what a naive full recomputation `calculate_compatibility(a,b)`
returns, and mirrored entries equal: `matrix[a][b] = matrix[b][a]`.  The
memoized loop is proved to refine the naive full recomputation
(`batchProcessing_eq_naive`), which the claim's symmetric reuse relies on. -/
theorem spec_C7_batch_matrix (s : DM) (hwf : WF s)
    (hnd : (s.users.map Prod.fst).Nodup) :
    ∃ mat, batchProcessing s = .ok mat ∧
      (∀ a ua, assocLookup a s.users = some ua →
        ∃ row, assocLookup a mat = some row ∧ assocLookup a row = none ∧
          (∀ b ub, assocLookup b s.users = some ub → b ≠ a →
            ∃ v, assocLookup b row = some v ∧
              calculateCompatibility s a b = .ok v ∧
              ∀ rowb, assocLookup b mat = some rowb → assocLookup a rowb = some v)) ∧
      (∀ a row, assocLookup a mat = some row → (assocLookup a s.users).isSome) := by
  refine ⟨naiveMatrix s, batchProcessing_eq_naive s, ?_, ?_⟩
  · intro a ua hua
    have hamem : a ∈ s.users.map Prod.fst := mem_keys_of_lookup_some a ua s.users hua
    have hreca : recOf s a = ua := by simp [recOf, hua]
    have hrow : assocLookup a (naiveMatrix s) = some ((s.users.map Prod.fst).filterMap
        (fun b => if b = a then none
          else some (b, pairScore s.questionsConfig (recOf s a) (recOf s b)))) := by
      unfold naiveMatrix
      rw [lookup_mapKeyed, if_pos hamem]
    refine ⟨_, hrow, ?_, ?_⟩
    · rw [lookup_filterMap_keyed]
      simp
    · intro b ub hub hba
      have hbmem : b ∈ s.users.map Prod.fst := mem_keys_of_lookup_some b ub s.users hub
      have hrecb : recOf s b = ub := by simp [recOf, hub]
      refine ⟨pairScore s.questionsConfig (recOf s a) (recOf s b), ?_, ?_, ?_⟩
      · rw [lookup_filterMap_keyed]
        rw [if_neg (by
          push_neg
          exact ⟨hba, hbmem⟩)]
      · rw [hreca, hrecb]
        exact calculateCompatibility_ok s a b ua ub hua hub
      · intro rowb hrowb
        have hrowb' : assocLookup b (naiveMatrix s) = some ((s.users.map Prod.fst).filterMap
            (fun c => if c = b then none
              else some (c, pairScore s.questionsConfig (recOf s b) (recOf s c)))) := by
          unfold naiveMatrix
          rw [lookup_mapKeyed, if_pos hbmem]
        rw [hrowb'] at hrowb
        have hre := Option.some_injective _ hrowb
        rw [← hre, lookup_filterMap_keyed]
        rw [if_neg (by
          push_neg
          exact ⟨fun hab => hba hab.symm, hamem⟩)]
        rw [pairScore_comm]
  · intro a row hrow
    unfold naiveMatrix at hrow
    rw [lookup_mapKeyed] at hrow
    split at hrow
    · rename_i hmem
      exact keys_isSome s a hmem
    · cases hrow

theorem spec_C7_instance :
    ∃ mat, batchProcessing (DM.mk defaultQuestionConfig
        [(1, ⟨List.replicate 100 (1/2), ⟨none, none⟩⟩),
         (2, ⟨List.replicate 100 (1/2), ⟨none, none⟩⟩)]) = .ok mat ∧
      ∀ a ua, assocLookup a (DM.mk defaultQuestionConfig
          [(1, ⟨List.replicate 100 (1/2), ⟨none, none⟩⟩),
           (2, ⟨List.replicate 100 (1/2), ⟨none, none⟩⟩)]).users = some ua →
        ∃ row, assocLookup a mat = some row ∧ assocLookup a row = none := by
  obtain ⟨mat, h1, h2, _⟩ := spec_C7_batch_matrix (DM.mk defaultQuestionConfig
      [(1, ⟨List.replicate 100 (1/2), ⟨none, none⟩⟩),
       (2, ⟨List.replicate 100 (1/2), ⟨none, none⟩⟩)]) halfUser_WF (by decide)
  refine ⟨mat, h1, ?_⟩
  intro a ua hua
  obtain ⟨row, hr1, hr2, _⟩ := h2 a ua hua
  exact ⟨row, hr1, hr2⟩
